import Mathlib

/-!
# DOMinator: a verification development

A shallow embedding of `main.go` (pattern matcher, script extractor, fetcher with
retry, worker loop) and theorems about it.

Conventions of the embedding:
* Go `string` is `String` (text is taken to be valid UTF-8);
* Go `int` and `time.Duration` are `Int`, wrapped to 64 bits where the source computes;
* the outside world (random generator, network, HTML parser) is an explicit argument;
* a Go `(value, error)` pair is an `Except String value`; a Go panic is a separate outcome.
-/

namespace DOMinator

/-! ## The regular expressions of `UnsafePatterns`

`regexp.MatchString` belongs to the Go standard library.  The fragment of its RE2 syntax
that the fifteen patterns use is embedded here: the flag group `(?i)`, literals, the escapes
`\s` and backslash-punctuation, `.`, bracket sets of literals, and the postfix `*`. -/

/-- A matcher of one character.  `fold` records the `(?i)` flag. -/
inductive CharClass where
  | lit (fold : Bool) (c : Char)
  | dot
  | space
  | set (fold : Bool) (cs : List Char)
  deriving Repr, DecidableEq

/-- Regular expressions over `CharClass`. -/
inductive Regex where
  | empty
  | eps
  | chr (k : CharClass)
  | cat (r s : Regex)
  | alt (r s : Regex)
  | star (r : Regex)
  deriving Repr, DecidableEq

/-- Representative of the simple case-folding orbit of a character, for the orbits that
contain an ASCII character: `A`-`Z` fold to `a`-`z`, and the Kelvin sign U+212A and the
long s U+017F lie in the orbits of `k` and `s` (Go folds with `unicode.SimpleFold`). -/
def foldKey (c : Char) : Nat :=
  if 65 ≤ c.toNat ∧ c.toNat ≤ 90 then c.toNat + 32
  else if c.toNat = 0x212A then 107
  else if c.toNat = 0x17F then 115
  else c.toNat

/-- Equality of characters, up to case folding when `fold` is set. -/
def charEq (fold : Bool) (a b : Char) : Bool :=
  if fold then foldKey a == foldKey b else a.toNat == b.toNat

/-- Whether a one-character matcher accepts a character.  `.` rejects the line feed (no
`s` flag in the patterns); `\s` is tab, line feed, form feed, carriage return, space. -/
def CharClass.test : CharClass → Char → Bool
  | .lit fold c, x => charEq fold c x
  | .dot, x => x.toNat != 10
  | .space, x => x.toNat == 9 || x.toNat == 10 || x.toNat == 12 || x.toNat == 13 || x.toNat == 32
  | .set fold cs, x => cs.any (fun c => charEq fold c x)

/-- Whether the expression accepts the empty text. -/
def Regex.nullable : Regex → Bool
  | .empty => false
  | .eps => true
  | .chr _ => false
  | .cat r s => r.nullable && s.nullable
  | .alt r s => r.nullable || s.nullable
  | .star _ => true

/-- The expression for what may follow the character `x`. -/
def Regex.deriv : Regex → Char → Regex
  | .empty, _ => .empty
  | .eps, _ => .empty
  | .chr k, x => if k.test x then .eps else .empty
  | .cat r s, x =>
      if r.nullable then .alt (.cat (r.deriv x) s) (s.deriv x) else .cat (r.deriv x) s
  | .alt r s, x => .alt (r.deriv x) (s.deriv x)
  | .star r, x => .cat (r.deriv x) (.star r)

/-- Whether the expression accepts some prefix of the text. -/
def Regex.matchPrefix : Regex → List Char → Bool
  | r, [] => r.nullable
  | r, x :: xs => r.nullable || (r.deriv x).matchPrefix xs

/-- Unanchored search: whether the expression accepts some contiguous part of the text. -/
def Regex.search (r : Regex) : List Char → Bool
  | [] => r.nullable
  | x :: xs => r.matchPrefix (x :: xs) || r.search xs

/-- The texts an expression denotes (the language of the expression), independently of
the matching algorithm. -/
inductive Regex.Accepts : Regex → List Char → Prop where
  | eps : Regex.Accepts .eps []
  | chr (k : CharClass) (x : Char) : k.test x = true → Regex.Accepts (.chr k) [x]
  | cat (r s : Regex) (u v : List Char) :
      Regex.Accepts r u → Regex.Accepts s v → Regex.Accepts (.cat r s) (u ++ v)
  | altLeft (r s : Regex) (u : List Char) : Regex.Accepts r u → Regex.Accepts (.alt r s) u
  | altRight (r s : Regex) (u : List Char) : Regex.Accepts s u → Regex.Accepts (.alt r s) u
  | starNil (r : Regex) : Regex.Accepts (.star r) []
  | starMore (r : Regex) (u v : List Char) :
      Regex.Accepts r u → Regex.Accepts (.star r) v → Regex.Accepts (.star r) (u ++ v)

/-- The text contains an occurrence of the expression: some contiguous part of it is in
the language of the expression. -/
def Regex.Occurs (r : Regex) (text : List Char) : Prop :=
  ∃ before part after, text = before ++ part ++ after ∧ r.Accepts part

/-- Whether every literal and set of the expression is matched up to case. -/
def Regex.folds : Regex → Bool
  | .empty => true
  | .eps => true
  | .chr (.lit fold _) => fold
  | .chr (.set fold _) => fold
  | .chr _ => true
  | .cat r s => r.folds && s.folds
  | .alt r s => r.folds && s.folds
  | .star r => r.folds

/-- Two texts that differ at most in the case of their characters. -/
def sameUpToCase : List Char → List Char → Prop
  | [], [] => True
  | a :: u, b :: v => foldKey a = foldKey b ∧ sameUpToCase u v
  | _, _ => False

/-- ASCII punctuation, the characters that a backslash makes literal. -/
def isPunct (c : Char) : Bool :=
  (33 ≤ c.toNat && c.toNat ≤ 47) || (58 ≤ c.toNat && c.toNat ≤ 64) ||
  (91 ≤ c.toNat && c.toNat ≤ 96) || (123 ≤ c.toNat && c.toNat ≤ 126)

/-- Characters with a meaning of their own in a pattern. -/
def isMeta (c : Char) : Bool :=
  "\\.+*?()|[]\x7b\x7d^$".data.any (fun m => m.toNat == c.toNat)

/-- The members of a bracket set up to the closing bracket, and the rest of the pattern.
Only sets of plain literals are in the fragment. -/
def parseSet : List Char → List Char → Option (List Char × List Char)
  | [], _ => none
  | c :: rest, acc =>
      if c.toNat == 93 then (if acc.isEmpty then none else some (acc.reverse, rest))
      else if isMeta c || c.toNat == 45 || 128 ≤ c.toNat then none
      else parseSet rest (c :: acc)

/-- One atom of a pattern and the rest of the pattern. -/
def parseAtom (fold : Bool) : List Char → Option (Regex × List Char)
  | [] => none
  | c :: rest =>
      if c.toNat == 92 then
        match rest with
        | [] => none
        | e :: rest2 =>
            if e.toNat == 115 then some (.chr .space, rest2)
            else if isPunct e then some (.chr (.lit fold e), rest2)
            else none
      else if c.toNat == 46 then some (.chr .dot, rest)
      else if c.toNat == 91 then
        match parseSet rest [] with
        | some (cs, rest2) => some (.chr (.set fold cs), rest2)
        | none => none
      else if isMeta c || 128 ≤ c.toNat then none
      else some (.chr (.lit fold c), rest)

/-- A concatenation of atoms, each with an optional `*`. -/
def parseConcat (fold : Bool) : Nat → List Char → Option Regex
  | 0, _ => none
  | fuel + 1, cs =>
      match cs with
      | [] => some .eps
      | _ =>
        match parseAtom fold cs with
        | none => none
        | some (a, rest) =>
            match rest with
            | [] => some a
            | s :: rest2 =>
                if s.toNat == 42 then
                  (parseConcat fold fuel rest2).map (Regex.cat (.star a))
                else
                  (parseConcat fold fuel rest).map (Regex.cat a)

/-- Compilation of a pattern: an optional leading `(?i)`, then a concatenation.  A pattern
outside the fragment is not compiled (`none`). -/
def compile (pattern : String) : Option Regex :=
  match pattern.data with
  | '(' :: '?' :: 'i' :: ')' :: cs => parseConcat true (cs.length + 1) cs
  | cs => parseConcat false (cs.length + 1) cs

/-- Go's `regexp.MatchString(pattern, s)`, first result: whether the text contains a match
of the pattern.  When the pattern does not compile the first result is `false`. -/
def MatchString (pattern : String) (s : String) : Bool :=
  match compile pattern with
  | some r => r.search s.data
  | none => false

/-! ## Pattern matcher -/

/-- The fifteen patterns of `main.go`, lines 20-36 (Go raw strings, here with escapes). -/
def UnsafePatterns : List String :=
  [ "(?i)innerHTML\\s*=",
    "(?i)outerHTML\\s*=",
    "(?i)document\\.write\\(",
    "(?i)eval\\(",
    "(?i)setTimeout\\(",
    "(?i)setInterval\\(",
    "(?i)location\\.href",
    "(?i)location\\.hash",
    "(?i)location\\.search",
    "(?i)document\\.cookie",
    "(?i)localStorage",
    "(?i)sessionStorage",
    "(?i)src\\s*=\\s*[\x27\"]javascript:",
    "(?i)\\+.*location",
    "(?i)\\.addEventListener\\([\x27\"].*[\x27\"],\\s*function" ]

/-- The finding text: `fmt.Sprintf("Pattern '%s' found in script:\n%s", pattern, script)`. -/
def findingText (pattern script : String) : String :=
  "Pattern \x27" ++ pattern ++ "\x27 found in script:\n" ++ script

/-- Inner loop of `ScanForUnsafePatterns`: the patterns in order, appending to `findings`. -/
def scanPatterns (script : String) : List String → List String → List String
  | [], findings => findings
  | pattern :: rest, findings =>
      if MatchString pattern script then
        scanPatterns script rest (findings ++ [findingText pattern script])
      else scanPatterns script rest findings

/-- Outer loop of `ScanForUnsafePatterns`: the scripts in order. -/
def scanScripts : List String → List String → List String
  | [], findings => findings
  | script :: rest, findings => scanScripts rest (scanPatterns script UnsafePatterns findings)

/-- `ScanForUnsafePatterns` of `main.go`, lines 128-139. -/
def ScanForUnsafePatterns (scripts : List String) : List String :=
  scanScripts scripts []

/-! ## The signatures as the specification reads them

The second description of the fifteen signatures, written out by hand and independent of
the pattern compiler and of the matcher: each signature is a label and a fragment, and a
fragment is a sequence of pieces. -/

/-- The case variants of `k`: the letter in both cases and the Kelvin sign U+212A. -/
def kVariants : List Char :=
  ['k', 'K', Char.ofNat 0x212A]

/-- The case variants of `s`: the letter in both cases and the long s U+017F. -/
def sVariants : List Char :=
  ['s', 'S', Char.ofNat 0x17F]

/-- Two characters that differ at most in case: equal after lower-casing, or two case
variants of `k`, or two case variants of `s`. -/
def sameLetter (a b : Char) : Prop :=
  a.toLower = b.toLower ∨ (a ∈ kVariants ∧ b ∈ kVariants) ∨ (a ∈ sVariants ∧ b ∈ sVariants)

/-- Two texts of the same length that differ at most in the case of their characters. -/
def sameText : List Char → List Char → Prop
  | [], [] => True
  | a :: u, b :: v => sameLetter a b ∧ sameText u v
  | _, _ => False

/-- White space: tab, line feed, form feed, carriage return, space. -/
def isSpace (c : Char) : Prop :=
  c = '\t' ∨ c = '\n' ∨ c = Char.ofNat 12 ∨ c = '\r' ∨ c = ' '

/-- A piece of a fragment. -/
inductive Piece where
  /-- The given text, in any case. -/
  | text (s : String)
  /-- White space, possibly none. -/
  | spaces
  /-- One quote character, single or double. -/
  | quote
  /-- Any characters on one line (no line feed), possibly none. -/
  | sameLine
  deriving Repr, DecidableEq

/-- The texts that are an instance of a piece. -/
def Piece.fits : Piece → List Char → Prop
  | .text s, u => sameText s.data u
  | .spaces, u => ∀ c, c ∈ u → isSpace c
  | .quote, u => ∃ c, u = [c] ∧ (c = Char.ofNat 39 ∨ c = '"')
  | .sameLine, u => ∀ c, c ∈ u → c ≠ '\n'

/-- The texts that are an instance of a fragment: instances of its pieces, one after the
other. -/
def isInstance : List Piece → List Char → Prop
  | [], w => w = []
  | p :: ps, w => ∃ u v, w = u ++ v ∧ p.fits u ∧ isInstance ps v

/-- The text contains an occurrence of the fragment. -/
def containsFragment (fragment : List Piece) (text : List Char) : Prop :=
  ∃ before part after, text = before ++ part ++ after ∧ isInstance fragment part

/-- The fifteen signatures: the label (the pattern text of `main.go`) and the fragment it
stands for. -/
def signatureFragments : List (String × List Piece) :=
  [ ("(?i)innerHTML\\s*=", [.text "innerHTML", .spaces, .text "="]),
    ("(?i)outerHTML\\s*=", [.text "outerHTML", .spaces, .text "="]),
    ("(?i)document\\.write\\(", [.text "document.write("]),
    ("(?i)eval\\(", [.text "eval("]),
    ("(?i)setTimeout\\(", [.text "setTimeout("]),
    ("(?i)setInterval\\(", [.text "setInterval("]),
    ("(?i)location\\.href", [.text "location.href"]),
    ("(?i)location\\.hash", [.text "location.hash"]),
    ("(?i)location\\.search", [.text "location.search"]),
    ("(?i)document\\.cookie", [.text "document.cookie"]),
    ("(?i)localStorage", [.text "localStorage"]),
    ("(?i)sessionStorage", [.text "sessionStorage"]),
    ("(?i)src\\s*=\\s*[\x27\"]javascript:",
      [.text "src", .spaces, .text "=", .spaces, .quote, .text "javascript:"]),
    ("(?i)\\+.*location", [.text "+", .sameLine, .text "location"]),
    ("(?i)\\.addEventListener\\([\x27\"].*[\x27\"],\\s*function",
      [.text ".addEventListener(", .quote, .sameLine, .quote, .text ",", .spaces,
       .text "function"]) ]

/-- The expressions of a piece, one per character or repetition (used to compare a fragment
with the compiled pattern). -/
def Piece.atoms : Piece → List Regex
  | .text s => s.data.map (fun c => Regex.chr (.lit true c))
  | .spaces => [.star (.chr .space)]
  | .quote => [.chr (.set true [Char.ofNat 39, '"'])]
  | .sameLine => [.star (.chr .dot)]

/-- The concatenation of a list of expressions, in the shape the compiler builds. -/
def catAtoms : List Regex → Regex
  | [] => .eps
  | [a] => a
  | a :: b :: rest => .cat a (catAtoms (b :: rest))

/-- The texts made of one text of each expression of a list, in order. -/
def seqAccepts : List Regex → List Char → Prop
  | [], w => w = []
  | a :: rest, w => ∃ u v, w = u ++ v ∧ a.Accepts u ∧ seqAccepts rest v

/-! ## Script extractor -/

/-- The node types of `golang.org/x/net/html`. -/
inductive NodeType where
  | ErrorNode | TextNode | DocumentNode | ElementNode | CommentNode | DoctypeNode | RawNode
  deriving Repr, DecidableEq

/-- An attribute of an element (`html.Attribute`). -/
structure Attribute where
  Namespace : String
  Key : String
  Val : String
  deriving Repr, DecidableEq

/-- A node of the parsed document (`html.Node`).  The chain `FirstChild`, `NextSibling`,
... of the source is the list `children`. -/
inductive Node where
  | mk (Type_ : NodeType) (Data : String) (Namespace : String) (Attr : List Attribute)
      (children : List Node)

/-- The field `Type` of the source (a reserved word here). -/
def Node.Type_ : Node → NodeType
  | .mk t _ _ _ _ => t

/-- The field `Data`: the tag of an element, the content of a text or comment node. -/
def Node.Data : Node → String
  | .mk _ d _ _ _ => d

/-- The field `Attr`. -/
def Node.Attr : Node → List Attribute
  | .mk _ _ _ a _ => a

/-- The children, first to last. -/
def Node.children : Node → List Node
  | .mk _ _ _ _ cs => cs

/-- The field `FirstChild` (`none` for the nil pointer). -/
def Node.FirstChild (n : Node) : Option Node :=
  n.children.head?

/-- The condition of line 115 and the value appended at line 116: for an element node with
tag `script` and a first child, the `Data` of that child. -/
def scriptEntry (n : Node) : Option String :=
  if n.Type_ = NodeType.ElementNode ∧ n.Data = "script" then
    match n.FirstChild with
    | some c => some c.Data
    | none => none
  else none

mutual
/-- The closure `traverse` of `ExtractScripts` (lines 114-121), the captured slice `scripts`
passed in and out. -/
def traverse : Node → List String → List String
  | .mk t d ns attr cs, scripts =>
      traverseSiblings cs
        (match scriptEntry (.mk t d ns attr cs) with
         | some body => scripts ++ [body]
         | none => scripts)
/-- The loop `for c := n.FirstChild; c != nil; c = c.NextSibling` of `traverse`. -/
def traverseSiblings : List Node → List String → List String
  | [], scripts => scripts
  | c :: rest, scripts => traverseSiblings rest (traverse c scripts)
end

/-- `ExtractScripts` of `main.go`, lines 106-125.  `Parse` is `html.Parse` on the text. -/
def ExtractScripts (Parse : String → Except String Node) (htmlSource : String) :
    Except String (List String) :=
  match Parse htmlSource with
  | .error err => .error ("failed to parse HTML: " ++ err)
  | .ok doc => .ok (traverse doc [])

mutual
/-- The nodes of a tree in depth-first pre-order (document order): a node, then the
pre-order of each child, first child first. -/
def preorder : Node → List Node
  | .mk t d ns attr cs => .mk t d ns attr cs :: preorderList cs
/-- The pre-order of a list of sibling trees. -/
def preorderList : List Node → List Node
  | [] => []
  | c :: rest => preorder c ++ preorderList rest
end

/-- An element node whose tag is `script`. -/
def isScriptElement (n : Node) : Bool :=
  n.Type_ = NodeType.ElementNode ∧ n.Data = "script"

/-- The entry the specification gives a node: for a `script` element whose first child is a
text node, the content of that child. -/
def textScriptEntry (n : Node) : Option String :=
  if isScriptElement n then
    match n.FirstChild with
    | some c => if c.Type_ = NodeType.TextNode then some c.Data else none
    | none => none
  else none

/-- Whether a node carries a `src` attribute. -/
def hasSrc (n : Node) : Bool :=
  n.Attr.any (fun a => a.Key = "src")

/-- The entry of a node when `script` elements with a `src` attribute are left out. -/
def inlineScriptEntry (n : Node) : Option String :=
  if hasSrc n then none else scriptEntry n

mutual
/-- The same tree with the attributes of every node replaced through `f`. -/
def mapAttr (f : List Attribute → List Attribute) : Node → Node
  | .mk t d ns attr cs => .mk t d ns (f attr) (mapAttrList f cs)
/-- The trees of a list with their attributes replaced through `f`. -/
def mapAttrList (f : List Attribute → List Attribute) : List Node → List Node
  | [] => []
  | c :: rest => mapAttr f c :: mapAttrList f rest
end

/-- The tree `html.Parse` builds for `<svg><script><g></g></script></svg>`: inside `svg` the
content of `script` is parsed as markup, so the first child of the script element is the
element `g`. -/
def svgScriptDoc : Node :=
  .mk .DocumentNode "" "" []
    [.mk .ElementNode "html" "" []
      [.mk .ElementNode "head" "" [] [],
       .mk .ElementNode "body" "" []
        [.mk .ElementNode "svg" "svg" []
          [.mk .ElementNode "script" "svg" [] [.mk .ElementNode "g" "svg" [] []]]]]]

/-- The tree of `<script src="a.js">alert(1)</script>`: a script element with a `src`
attribute and a body. -/
def srcScriptDoc : Node :=
  .mk .DocumentNode "" "" []
    [.mk .ElementNode "html" "" []
      [.mk .ElementNode "head" "" []
        [.mk .ElementNode "script" "" [⟨"", "src", "a.js"⟩] [.mk .TextNode "alert(1)" "" [] []]],
       .mk .ElementNode "body" "" [] []]]

/-- The tree of `<script>a()</script><script src="b.js"></script><p>x</p><script>c()</script>`:
two script elements with a body and one with only a `src` attribute. -/
def threeScriptDoc : Node :=
  .mk .DocumentNode "" "" []
    [.mk .ElementNode "html" "" []
      [.mk .ElementNode "head" "" []
        [.mk .ElementNode "script" "" [] [.mk .TextNode "a()" "" [] []],
         .mk .ElementNode "script" "" [⟨"", "src", "b.js"⟩] []],
       .mk .ElementNode "body" "" []
        [.mk .ElementNode "p" "" [] [.mk .TextNode "x" "" [] []],
         .mk .ElementNode "script" "" [] [.mk .TextNode "c()" "" [] []]]]]

/-! ## Machine integers, random numbers, time -/

deriving instance DecidableEq for Except

/-- A value wrapped to the signed 64-bit range (Go `int` on 64-bit targets, `int64`,
`time.Duration`). -/
def wrap64 (x : Int) : Int :=
  (x + 2 ^ 63) % 2 ^ 64 - 2 ^ 63

/-- What running a piece of the program gives: a value, or a panic. -/
inductive Run (α : Type) where
  | done (a : α)
  | panic (msg : String)
  deriving Repr, DecidableEq

/-- `rand.Intn(n)`: panics when `n <= 0`, else gives a value in `[0, n)`.  `draw` is the
number the generator yields, reduced to the range. -/
def Intn (n : Int) (draw : Nat) : Run Int :=
  if n ≤ 0 then .panic "invalid argument to Intn" else .done ((draw : Int) % n)

/-- What the program does to the outside, in order. -/
inductive Event where
  /-- The call `client.Do(req)`: one HTTP request to `url` with the given User-Agent. -/
  | request (url : String) (userAgent : String)
  /-- The call `time.Sleep(d)`, `d` in nanoseconds (it returns at once when `d <= 0`). -/
  | sleep (d : Int)
  /-- A line sent on `findingsChan`. -/
  | send (line : String)
  deriving Repr, DecidableEq

/-- A run: the events so far and how it ended. -/
structure Prog (α : Type) where
  events : List Event
  result : Run α
  deriving Repr, DecidableEq

/-- Sequencing of runs; a panic ends the run. -/
def Prog.andThen {α β : Type} (p : Prog α) (f : α → Prog β) : Prog β :=
  match p.result with
  | .panic msg => ⟨p.events, .panic msg⟩
  | .done a => ⟨p.events ++ (f a).events, (f a).result⟩

/-- The constants `time.Millisecond` and `time.Second`, in nanoseconds. -/
def Millisecond : Int := 1000000
/-- See `Millisecond`. -/
def Second : Int := 1000000000

/-- The value of `delay` in `randomDelay` (line 52) when `rand.Intn` returned `r`. -/
def delayOf (rateLimit : Int) (r : Int) : Int :=
  wrap64 (wrap64 (r + Int.tdiv rateLimit 2) * Millisecond)

/-- `randomDelay` of `main.go`, lines 51-54. -/
def randomDelay (rateLimit : Int) (draw : Nat) : Prog Unit :=
  match Intn rateLimit draw with
  | .panic msg => ⟨[], .panic msg⟩
  | .done r => ⟨[.sleep (delayOf rateLimit r)], .done ()⟩

/-! ## Fetcher -/

/-- The pool of lines 38-44. -/
def userAgents : List String :=
  [ "Mozilla/5.0 (Windows NT 10.0; Win64; x64) AppleWebKit/537.36 (KHTML, like Gecko) Chrome/91.0.4472.124 Safari/537.36",
    "Mozilla/5.0 (Macintosh; Intel Mac OS X 10_15_7) AppleWebKit/537.36 (KHTML, like Gecko) Chrome/91.0.4472.124 Safari/537.36",
    "Mozilla/5.0 (X11; Ubuntu; Linux x86_64; rv:89.0) Gecko/20100101 Firefox/89.0",
    "Mozilla/5.0 (iPhone; CPU iPhone OS 14_6 like Mac OS X) AppleWebKit/605.1.15 (KHTML, like Gecko) Version/14.1.1 Mobile/15E148 Safari/604.1",
    "Mozilla/5.0 (Windows NT 6.1; Win64; x64) AppleWebKit/537.36 (KHTML, like Gecko) Chrome/91.0.4472.124 Safari/537.36" ]

/-- `getRandomUserAgent` of lines 46-49; the pool is not empty, so `rand.Intn` returns. -/
def getRandomUserAgent (draw : Nat) : String :=
  userAgents.getD (draw % userAgents.length) ""

/-- The digits of a decimal numeral, `none` when a character is not a digit. -/
def digitsValue : List Char → Nat → Option Nat
  | [], acc => some acc
  | c :: rest, acc =>
      if 48 ≤ c.toNat ∧ c.toNat ≤ 57 then digitsValue rest (acc * 10 + (c.toNat - 48)) else none

/-- `strconv.Atoi` (Go standard library): an optional sign and one or more decimal digits,
the value within the 64-bit range; anything else is an error (`none`). -/
def Atoi (s : String) : Option Int :=
  let signed (neg : Bool) (ds : List Char) : Option Int :=
    match ds with
    | [] => none
    | _ =>
      match digitsValue ds 0 with
      | none => none
      | some v =>
          let n : Int := if neg then -(v : Int) else (v : Int)
          if -(2 ^ 63) ≤ n ∧ n < 2 ^ 63 then some n else none
  match s.data with
  | '-' :: ds => signed true ds
  | '+' :: ds => signed false ds
  | ds => signed false ds

/-- An HTTP response as `FetchURL` reads it. -/
structure Response where
  /-- The field `resp.StatusCode`. -/
  StatusCode : Int
  /-- The value of `resp.Header.Get("Retry-After")`, empty when the header is absent. -/
  RetryAfter : String
  /-- The outcome of `io.Copy(&body, resp.Body)`: the whole body, or the read error. -/
  Body : Except String String

/-- The outcome of `client.Do(req)`. -/
inductive Reply where
  | failed (err : String)
  | responded (resp : Response)

/-- What the outside world does at one attempt of `FetchURL`. -/
structure Attempt where
  /-- The draw of `getRandomUserAgent`. -/
  agentDraw : Nat
  /-- The outcome of the request. -/
  reply : Reply
  /-- The draw of `randomDelay`, read only if that attempt calls it. -/
  delayDraw : Nat

/-- Lines 79-87: the delay read from the `Retry-After` header, when the branch that sleeps
for it and continues is taken (flag set, header not empty, `strconv.Atoi` without error). -/
def headerDelay (retryAfter : Bool) (resp : Response) : Option Int :=
  if retryAfter then
    if resp.RetryAfter ≠ "" then Atoi resp.RetryAfter else none
  else none

/-- What `return "", lastErr` (line 102) gives: a nil error returns the empty text. -/
def returnLastErr (lastErr : Option String) : Except String String :=
  match lastErr with
  | some e => .error e
  | none => .ok ""

/-- The loop of `FetchURL` (lines 60-101) with `left` iterations to go, `retries` the loop
counter.  `requestErr` is the error of `http.NewRequest` on the proxy URL, if any (the same
at every iteration).  Every path that goes on to the next iteration assigns `lastErr` first,
so an iteration does not read the value it receives. -/
def fetchLoop (requestErr : Option String) (proxyURL : String) (rateLimit : Int)
    (retryAfter : Bool) (world : Nat → Attempt) :
    Nat → Nat → Option String → Prog (Except String String)
  | 0, _, lastErr => ⟨[], .done (returnLastErr lastErr)⟩
  | left + 1, retries, _ =>
      match requestErr with
      | some err => ⟨[], .done (.error ("failed to create request: " ++ err))⟩
      | none =>
        let a := world retries
        Prog.andThen ⟨[.request proxyURL (getRandomUserAgent a.agentDraw)], .done ()⟩ fun _ =>
        match a.reply with
        | .failed err =>
            (randomDelay rateLimit a.delayDraw).andThen fun _ =>
            fetchLoop requestErr proxyURL rateLimit retryAfter world left (retries + 1)
              (some ("failed to fetch URL: " ++ err))
        | .responded resp =>
            if resp.StatusCode = 429 then
              match headerDelay retryAfter resp with
              | some retryDelay =>
                  Prog.andThen ⟨[.sleep (wrap64 (retryDelay * Second))], .done ()⟩ fun _ =>
                  fetchLoop requestErr proxyURL rateLimit retryAfter world left (retries + 1)
                    (some "rate limited (HTTP 429)")
              | none =>
                  (randomDelay rateLimit a.delayDraw).andThen fun _ =>
                  fetchLoop requestErr proxyURL rateLimit retryAfter world left (retries + 1)
                    (some "rate limited (HTTP 429)")
            else if resp.StatusCode ≠ 200 then
              ⟨[], .done (.error ("non-200 response: " ++ toString resp.StatusCode))⟩
            else
              match resp.Body with
              | .error err => ⟨[], .done (.error ("failed to read response body: " ++ err))⟩
              | .ok body => ⟨[], .done (.ok body)⟩

/-- `FetchURL` of `main.go`, lines 57-103.  `NewRequest` gives the error of
`http.NewRequest("GET", proxyURL, nil)`, if any. -/
def FetchURL (NewRequest : String → Option String) (world : Nat → Attempt)
    (url : String) (rateLimit : Int) (retryAfter : Bool) : Prog (Except String String) :=
  let proxyURL := "https://api.allorigins.win/raw?url=" ++ url
  fetchLoop (NewRequest proxyURL) proxyURL rateLimit retryAfter world 5 0 none

/-- An attempt after which the loop goes on: a transport error or a response 429. -/
def Reply.retryable : Reply → Bool
  | .failed _ => true
  | .responded resp => resp.StatusCode == 429

/-- The error an attempt leaves in `lastErr` (lines 71 and 78). -/
def Reply.errorText : Reply → String
  | .failed err => "failed to fetch URL: " ++ err
  | .responded _ => "rate limited (HTTP 429)"

/-- The argument of the `time.Sleep` that follows an attempt after which the loop goes on,
for `rateLimit >= 1`. -/
def pauseAfter (rateLimit : Int) (retryAfter : Bool) (a : Attempt) : Int :=
  match a.reply with
  | .failed _ => delayOf rateLimit ((a.delayDraw : Int) % rateLimit)
  | .responded resp =>
      match headerDelay retryAfter resp with
      | some retryDelay => wrap64 (retryDelay * Second)
      | none => delayOf rateLimit ((a.delayDraw : Int) % rateLimit)

/-- The events of `count` attempts in a row after each of which the loop goes on, from
attempt number `start`: a request and a sleep each. -/
def retryEvents (proxyURL : String) (rateLimit : Int) (retryAfter : Bool)
    (world : Nat → Attempt) (start : Nat) : Nat → List Event
  | 0 => []
  | count + 1 =>
      .request proxyURL (getRandomUserAgent (world start).agentDraw) ::
      .sleep (pauseAfter rateLimit retryAfter (world start)) ::
      retryEvents proxyURL rateLimit retryAfter world (start + 1) count

/-- A world in which every attempt gets a response 429 with the given `Retry-After` value. -/
def always429 (header : String) : Nat → Attempt :=
  fun _ => ⟨0, .responded ⟨429, header, .ok ""⟩, 7⟩

/-- A world in which every attempt fails in transport. -/
def alwaysFailed : Nat → Attempt :=
  fun _ => ⟨0, .failed "dial tcp: timeout", 7⟩

/-- A world in which two attempts get a 429 and the third gets the given response. -/
def thirdResponds (resp : Response) : Nat → Attempt :=
  fun i => if i < 2 then ⟨0, .responded ⟨429, "", .ok ""⟩, 7⟩ else ⟨0, .responded resp, 7⟩

/-- A world in which the first attempt gets a response 200 whose body cannot be read to
the end. -/
def bodyReadFails : Nat → Attempt :=
  fun _ => ⟨0, .responded ⟨200, "", .error "unexpected EOF"⟩, 7⟩

/-! ## Worker -/

/-- What one URL of the queue meets: the text received from `urls`, the draw of the pacing
delay, and the attempts of its fetch. -/
structure Job where
  url : String
  pacingDraw : Nat
  world : Nat → Attempt

/-- The parameters of `worker` and the two pure library functions it reaches. -/
structure Config where
  showErrors : Bool
  rateLimit : Int
  retryAfter : Bool
  NewRequest : String → Option String
  Parse : String → Except String Node

/-- The part of the loop body of `worker` after the fetch (lines 151-171). -/
def report (cfg : Config) (url : String) (fetched : Except String String) : Prog Unit :=
  match fetched with
  | .error err =>
      if cfg.showErrors then ⟨[.send ("Error fetching URL " ++ url ++ ": " ++ err)], .done ()⟩
      else ⟨[], .done ()⟩
  | .ok htmlSource =>
      match ExtractScripts cfg.Parse htmlSource with
      | .error err =>
          if cfg.showErrors then
            ⟨[.send ("Error extracting scripts from URL " ++ url ++ ": " ++ err)], .done ()⟩
          else ⟨[], .done ()⟩
      | .ok inlineScripts =>
          let findings := ScanForUnsafePatterns inlineScripts
          if findings.length > 0 then
            ⟨[.send ("Possible DOM XSS vulnerabilities detected in " ++ url ++ ":\n" ++
                String.intercalate "\n" findings)], .done ()⟩
          else if cfg.showErrors then
            ⟨[.send ("No potential DOM XSS vulnerabilities detected in " ++ url ++ ".")], .done ()⟩
          else ⟨[], .done ()⟩

/-- One iteration of the loop of `worker` (lines 144-172). -/
def workerIteration (cfg : Config) (job : Job) : Prog Unit :=
  if job.url = "" then ⟨[], .done ()⟩
  else
    (randomDelay cfg.rateLimit job.pacingDraw).andThen fun _ =>
    (FetchURL cfg.NewRequest job.world job.url cfg.rateLimit cfg.retryAfter).andThen fun fetched =>
    report cfg job.url fetched

/-- The loop of `worker` (lines 141-173) over what it receives from `urls`. -/
def worker (cfg : Config) : List Job → Prog Unit
  | [] => ⟨[], .done ()⟩
  | job :: rest => (workerIteration cfg job).andThen fun _ => worker cfg rest

/-- The values of the flags `-c`, `-rl`, `-v`, `-r` after `flag.Parse` (lines 181-185); the
flag package accepts every integer. -/
structure Flags where
  concurrency : Int
  rateLimit : Int
  showErrors : Bool
  retryAfter : Bool

/-- The defaults of the flags. -/
def defaultFlags : Flags :=
  ⟨5, 1000, false, false⟩

/-- The arguments `main` starts each `worker` with (line 194): the flag values as parsed. -/
def workerConfig (flags : Flags) (NewRequest : String → Option String)
    (Parse : String → Except String Node) : Config :=
  ⟨flags.showErrors, flags.rateLimit, flags.retryAfter, NewRequest, Parse⟩

/-- The tree of a page whose only script is `eval(x)`. -/
def evalDoc : Node :=
  .mk .DocumentNode "" "" []
    [.mk .ElementNode "html" "" []
      [.mk .ElementNode "head" "" []
        [.mk .ElementNode "script" "" [] [.mk .TextNode "eval(x)" "" [] []]],
       .mk .ElementNode "body" "" [] []]]

/-- The configuration of the default flags, with a parser that gives `evalDoc`. -/
def quietConfig : Config :=
  workerConfig defaultFlags (fun _ => none) (fun _ => .ok evalDoc)

/-- A job whose first attempt gets a response 200. -/
def okJob (url : String) : Job :=
  ⟨url, 3, fun _ => ⟨0, .responded ⟨200, "", .ok "<script>eval(x)</script>"⟩, 7⟩⟩

/-- The lines sent on `findingsChan` during a run. -/
def sentLines : List Event → List String
  | [] => []
  | .send line :: rest => line :: sentLines rest
  | _ :: rest => sentLines rest

/-- The number of HTTP requests of a run. -/
def requestCount : List Event → Nat
  | [] => 0
  | .request _ _ :: rest => requestCount rest + 1
  | _ :: rest => requestCount rest

/-! ## Lemmas: the matching algorithm against the language -/

theorem accepts_nil_of_nullable : ∀ (r : Regex), r.nullable = true → r.Accepts []
  | .empty, h => by simp [Regex.nullable] at h
  | .eps, _ => .eps
  | .chr _, h => by simp [Regex.nullable] at h
  | .cat r s, h => by
      simp only [Regex.nullable, Bool.and_eq_true] at h
      exact Regex.Accepts.cat r s [] [] (accepts_nil_of_nullable r h.1) (accepts_nil_of_nullable s h.2)
  | .alt r s, h => by
      simp only [Regex.nullable, Bool.or_eq_true] at h
      rcases h with h | h
      · exact .altLeft r s [] (accepts_nil_of_nullable r h)
      · exact .altRight r s [] (accepts_nil_of_nullable s h)
  | .star r, _ => .starNil r

theorem nullable_of_accepts {r : Regex} {w : List Char} (h : r.Accepts w) :
    w = [] → r.nullable = true := by
  induction h with
  | eps => intro _; rfl
  | chr k x _ => intro hw; simp at hw
  | cat r s u v _ _ ihr ihs =>
      intro hw
      have huv := List.append_eq_nil.mp hw
      simp [Regex.nullable, ihr huv.1, ihs huv.2]
  | altLeft r s u _ ih => intro hw; simp [Regex.nullable, ih hw]
  | altRight r s u _ ih => intro hw; simp [Regex.nullable, ih hw]
  | starNil r => intro _; rfl
  | starMore r u v _ _ _ _ => intro _; rfl

theorem nullable_iff (r : Regex) : r.nullable = true ↔ r.Accepts [] :=
  ⟨accepts_nil_of_nullable r, fun h => nullable_of_accepts h rfl⟩

theorem accepts_cat_iff (r s : Regex) (w : List Char) :
    (Regex.cat r s).Accepts w ↔ ∃ u v, w = u ++ v ∧ r.Accepts u ∧ s.Accepts v := by
  constructor
  · intro h
    cases h with
    | cat _ _ u v hu hv => exact ⟨u, v, rfl, hu, hv⟩
  · rintro ⟨u, v, rfl, hu, hv⟩
    exact .cat r s u v hu hv

theorem accepts_alt_iff (r s : Regex) (w : List Char) :
    (Regex.alt r s).Accepts w ↔ r.Accepts w ∨ s.Accepts w := by
  constructor
  · intro h
    cases h with
    | altLeft _ _ _ h => exact Or.inl h
    | altRight _ _ _ h => exact Or.inr h
  · rintro (h | h)
    · exact .altLeft r s w h
    · exact .altRight r s w h

theorem accepts_chr_iff (k : CharClass) (w : List Char) :
    (Regex.chr k).Accepts w ↔ ∃ x, w = [x] ∧ k.test x = true := by
  constructor
  · intro h
    cases h with
    | chr _ x hx => exact ⟨x, rfl, hx⟩
  · rintro ⟨x, rfl, hx⟩
    exact .chr k x hx

theorem not_accepts_empty (w : List Char) : ¬ Regex.empty.Accepts w := by
  intro h; cases h

theorem accepts_eps_iff (w : List Char) : Regex.eps.Accepts w ↔ w = [] := by
  constructor
  · intro h; cases h; rfl
  · rintro rfl; exact .eps

/-- A non-empty text of a starred expression starts with a non-empty text of the
expression. -/
theorem accepts_star_cons {r : Regex} {w : List Char} (h : (Regex.star r).Accepts w) :
    ∀ x xs, w = x :: xs →
      ∃ u v, xs = u ++ v ∧ r.Accepts (x :: u) ∧ (Regex.star r).Accepts v := by
  generalize hq : Regex.star r = q at h
  induction h with
  | eps => cases hq
  | chr k x _ => cases hq
  | cat r s u v _ _ _ _ => cases hq
  | altLeft r s u _ _ => cases hq
  | altRight r s u _ _ => cases hq
  | starNil r0 => intro x xs hw; cases hw
  | starMore r0 u v hu hv _ ihv =>
      cases hq
      intro x xs hw
      cases u with
      | nil => exact ihv rfl x xs hw
      | cons y u1 =>
          simp only [List.cons_append, List.cons.injEq] at hw
          obtain ⟨rfl, rfl⟩ := hw
          exact ⟨u1, v, rfl, hu, hv⟩

theorem accepts_deriv_iff : ∀ (r : Regex) (x : Char) (xs : List Char),
    (r.deriv x).Accepts xs ↔ r.Accepts (x :: xs)
  | .empty, x, xs => by
      simp only [Regex.deriv]
      exact ⟨fun h => absurd h (not_accepts_empty _), fun h => absurd h (not_accepts_empty _)⟩
  | .eps, x, xs => by
      simp only [Regex.deriv, accepts_eps_iff]
      exact ⟨fun h => absurd h (not_accepts_empty _), fun h => by simp at h⟩
  | .chr k, x, xs => by
      simp only [Regex.deriv, accepts_chr_iff]
      by_cases hk : k.test x = true
      · simp only [hk, if_true, accepts_eps_iff]
        constructor
        · rintro rfl; exact ⟨x, rfl, hk⟩
        · rintro ⟨y, hy, _⟩; simp at hy; exact hy.2
      · simp only [hk, if_false]
        constructor
        · intro h; exact absurd h (not_accepts_empty _)
        · rintro ⟨y, hy, hyk⟩
          simp at hy
          rw [← hy.1] at hyk
          exact absurd hyk hk
  | .cat r s, x, xs => by
      have ihr := accepts_deriv_iff r x
      have ihs := accepts_deriv_iff s x
      have key : (Regex.cat r s).Accepts (x :: xs) ↔
          (∃ u v, xs = u ++ v ∧ r.Accepts (x :: u) ∧ s.Accepts v) ∨
          (r.nullable = true ∧ s.Accepts (x :: xs)) := by
        rw [accepts_cat_iff]
        constructor
        · rintro ⟨u, v, huv, hu, hv⟩
          cases u with
          | nil =>
              simp only [List.nil_append] at huv
              subst huv
              exact Or.inr ⟨(nullable_iff r).mpr hu, hv⟩
          | cons y u1 =>
              simp only [List.cons_append, List.cons.injEq] at huv
              obtain ⟨rfl, rfl⟩ := huv
              exact Or.inl ⟨u1, v, rfl, hu, hv⟩
        · rintro (⟨u, v, rfl, hu, hv⟩ | ⟨hn, hs⟩)
          · exact ⟨x :: u, v, rfl, hu, hv⟩
          · exact ⟨[], x :: xs, rfl, (nullable_iff r).mp hn, hs⟩
      rw [key]
      simp only [Regex.deriv]
      by_cases hn : r.nullable = true
      · rw [if_pos hn]
        simp only [accepts_alt_iff, accepts_cat_iff, ihr, ihs, hn, true_and]
      · rw [if_neg hn]
        simp only [accepts_cat_iff, ihr, hn, false_and, or_false, Bool.false_eq_true]
  | .alt r s, x, xs => by
      simp only [Regex.deriv, accepts_alt_iff, accepts_deriv_iff r x xs, accepts_deriv_iff s x xs]
  | .star r, x, xs => by
      have ihr := accepts_deriv_iff r x
      simp only [Regex.deriv, accepts_cat_iff, ihr]
      constructor
      · rintro ⟨u, v, rfl, hu, hv⟩
        exact Regex.Accepts.starMore r (x :: u) v hu hv
      · intro h
        exact accepts_star_cons h x xs rfl

theorem matchPrefix_iff : ∀ (w : List Char) (r : Regex),
    r.matchPrefix w = true ↔ ∃ u v, w = u ++ v ∧ r.Accepts u
  | [], r => by
      simp only [Regex.matchPrefix, nullable_iff]
      constructor
      · intro h; exact ⟨[], [], rfl, h⟩
      · rintro ⟨u, v, huv, hu⟩
        have := List.append_eq_nil.mp huv.symm
        rw [this.1] at hu
        exact hu
  | x :: xs, r => by
      simp only [Regex.matchPrefix, Bool.or_eq_true, nullable_iff, matchPrefix_iff xs (r.deriv x),
        accepts_deriv_iff]
      constructor
      · rintro (h | ⟨u, v, rfl, hu⟩)
        · exact ⟨[], x :: xs, rfl, h⟩
        · exact ⟨x :: u, v, rfl, hu⟩
      · rintro ⟨u, v, huv, hu⟩
        cases u with
        | nil => exact Or.inl hu
        | cons y u1 =>
            simp only [List.cons_append, List.cons.injEq] at huv
            obtain ⟨rfl, rfl⟩ := huv
            exact Or.inr ⟨u1, v, rfl, hu⟩

theorem search_iff (r : Regex) : ∀ (w : List Char), r.search w = true ↔ r.Occurs w
  | [] => by
      simp only [Regex.search, nullable_iff, Regex.Occurs]
      constructor
      · intro h; exact ⟨[], [], [], rfl, h⟩
      · rintro ⟨a, u, b, h, hu⟩
        have h1 := List.append_eq_nil.mp h.symm
        have h2 := List.append_eq_nil.mp h1.1
        rw [h2.2] at hu
        exact hu
  | x :: xs => by
      simp only [Regex.search, Bool.or_eq_true, matchPrefix_iff, search_iff r xs, Regex.Occurs]
      constructor
      · rintro (⟨u, v, huv, hu⟩ | ⟨a, u, b, h, hu⟩)
        · exact ⟨[], u, v, by simpa using huv, hu⟩
        · exact ⟨x :: a, u, b, by simp [h], hu⟩
      · rintro ⟨a, u, b, h, hu⟩
        cases a with
        | nil => exact Or.inl ⟨u, b, by simpa using h, hu⟩
        | cons y a1 =>
            simp only [List.cons_append, List.cons.injEq] at h
            exact Or.inr ⟨a1, u, b, h.2, hu⟩

/-! ## Lemmas: case folding -/

theorem foldKey_small (x : Char) (n : Nat) (hn : n < 65) : foldKey x = n ↔ x.toNat = n := by
  unfold foldKey
  split_ifs <;> omega

theorem beq_of_iff {a b n : Nat} (e : a = n ↔ b = n) : (a == n) = (b == n) := by
  by_cases h : b = n
  · rw [e.mpr h, h]
  · have ha : ¬ a = n := fun ha => h (e.mp ha)
    rw [beq_eq_false_iff_ne.mpr ha, beq_eq_false_iff_ne.mpr h]

theorem test_of_foldKey {k : CharClass} (hk : (Regex.chr k).folds = true) {x y : Char}
    (h : foldKey x = foldKey y) : k.test x = k.test y := by
  cases k with
  | lit fold c =>
      simp only [Regex.folds] at hk
      subst hk
      simp [CharClass.test, charEq, h]
  | dot =>
      have e : x.toNat = 10 ↔ y.toNat = 10 := by
        rw [← foldKey_small x 10 (by omega), ← foldKey_small y 10 (by omega), h]
      show (!(x.toNat == 10)) = (!(y.toNat == 10))
      rw [beq_of_iff e]
  | space =>
      have e : ∀ n, n < 65 → (x.toNat = n ↔ y.toNat = n) := fun n hn => by
        rw [← foldKey_small x n hn, ← foldKey_small y n hn, h]
      show (x.toNat == 9 || x.toNat == 10 || x.toNat == 12 || x.toNat == 13 || x.toNat == 32) =
        (y.toNat == 9 || y.toNat == 10 || y.toNat == 12 || y.toNat == 13 || y.toNat == 32)
      rw [beq_of_iff (e 9 (by omega)), beq_of_iff (e 10 (by omega)), beq_of_iff (e 12 (by omega)),
        beq_of_iff (e 13 (by omega)), beq_of_iff (e 32 (by omega))]
  | set fold cs =>
      simp only [Regex.folds] at hk
      subst hk
      simp [CharClass.test, charEq, h]

theorem deriv_of_foldKey : ∀ (r : Regex), r.folds = true → ∀ (x y : Char),
    foldKey x = foldKey y → r.deriv x = r.deriv y
  | .empty, _, _, _, _ => rfl
  | .eps, _, _, _, _ => rfl
  | .chr k, hr, x, y, h => by simp only [Regex.deriv, test_of_foldKey hr h]
  | .cat r s, hr, x, y, h => by
      simp only [Regex.folds, Bool.and_eq_true] at hr
      simp only [Regex.deriv, deriv_of_foldKey r hr.1 x y h, deriv_of_foldKey s hr.2 x y h]
  | .alt r s, hr, x, y, h => by
      simp only [Regex.folds, Bool.and_eq_true] at hr
      simp only [Regex.deriv, deriv_of_foldKey r hr.1 x y h, deriv_of_foldKey s hr.2 x y h]
  | .star r, hr, x, y, h => by
      simp only [Regex.folds] at hr
      simp only [Regex.deriv, deriv_of_foldKey r hr x y h]

theorem folds_deriv : ∀ (r : Regex), r.folds = true → ∀ x : Char, (r.deriv x).folds = true
  | .empty, _, _ => rfl
  | .eps, _, _ => rfl
  | .chr k, _, x => by
      simp only [Regex.deriv]
      split_ifs <;> rfl
  | .cat r s, hr, x => by
      simp only [Regex.folds, Bool.and_eq_true] at hr
      simp only [Regex.deriv]
      split_ifs <;>
        simp [Regex.folds, folds_deriv r hr.1 x, folds_deriv s hr.2 x, hr.2]
  | .alt r s, hr, x => by
      simp only [Regex.folds, Bool.and_eq_true] at hr
      simp [Regex.deriv, Regex.folds, folds_deriv r hr.1 x, folds_deriv s hr.2 x]
  | .star r, hr, x => by
      simp only [Regex.folds] at hr
      simp [Regex.deriv, Regex.folds, folds_deriv r hr x, hr]

theorem matchPrefix_of_sameUpToCase : ∀ (u v : List Char) (r : Regex), r.folds = true →
    sameUpToCase u v → r.matchPrefix u = r.matchPrefix v
  | [], [], _, _, _ => rfl
  | [], _ :: _, _, _, h => by simp [sameUpToCase] at h
  | _ :: _, [], _, _, h => by simp [sameUpToCase] at h
  | a :: u, b :: v, r, hr, h => by
      simp only [sameUpToCase] at h
      simp only [Regex.matchPrefix, deriv_of_foldKey r hr a b h.1]
      rw [matchPrefix_of_sameUpToCase u v (r.deriv b) (folds_deriv r hr b) h.2]

theorem search_of_sameUpToCase (r : Regex) (hr : r.folds = true) : ∀ (u v : List Char),
    sameUpToCase u v → r.search u = r.search v
  | [], [], _ => rfl
  | [], _ :: _, h => by simp [sameUpToCase] at h
  | _ :: _, [], h => by simp [sameUpToCase] at h
  | a :: u, b :: v, h => by
      have h2 := h
      simp only [sameUpToCase] at h2
      simp only [Regex.search, matchPrefix_of_sameUpToCase (a :: u) (b :: v) r hr h,
        search_of_sameUpToCase r hr u v h2.2]

/-! ## Lemmas: the loops of the pattern matcher -/

theorem scanPatterns_eq (script : String) : ∀ (patterns findings : List String),
    scanPatterns script patterns findings =
      findings ++ (patterns.filter (fun pattern => MatchString pattern script)).map
        (fun pattern => findingText pattern script)
  | [], findings => by simp [scanPatterns]
  | pattern :: rest, findings => by
      by_cases h : MatchString pattern script = true
      · simp [scanPatterns, h, scanPatterns_eq script rest]
      · simp [scanPatterns, h, scanPatterns_eq script rest]

theorem scanScripts_eq : ∀ (scripts findings : List String),
    scanScripts scripts findings =
      findings ++ scripts.flatMap (fun script =>
        (UnsafePatterns.filter (fun pattern => MatchString pattern script)).map
          (fun pattern => findingText pattern script))
  | [], findings => by simp [scanScripts]
  | script :: rest, findings => by
      rw [scanScripts, scanScripts_eq rest, scanPatterns_eq, List.flatMap_cons, List.append_assoc]

theorem matchString_iff {pattern : String} {r : Regex} (h : compile pattern = some r)
    (script : String) : MatchString pattern script = true ↔ r.Occurs script.data := by
  simp only [MatchString, h, search_iff]

/-! ## Lemmas: the traversal -/

mutual
theorem traverse_eq : ∀ (n : Node) (scripts : List String),
    traverse n scripts = scripts ++ (preorder n).filterMap scriptEntry
  | .mk t d ns attr cs, scripts => by
      rw [traverse, traverseSiblings_eq cs, preorder, List.filterMap_cons]
      cases scriptEntry (.mk t d ns attr cs) <;> simp
theorem traverseSiblings_eq : ∀ (cs : List Node) (scripts : List String),
    traverseSiblings cs scripts = scripts ++ (preorderList cs).filterMap scriptEntry
  | [], scripts => by simp [traverseSiblings, preorderList]
  | c :: rest, scripts => by
      rw [traverseSiblings, traverse_eq c, traverseSiblings_eq rest, preorderList]
      simp
end

theorem scriptEntry_mapAttr (f : List Attribute → List Attribute) :
    ∀ n : Node, scriptEntry (mapAttr f n) = scriptEntry n
  | .mk t d ns attr [] => by
      simp [mapAttr, mapAttrList, scriptEntry, Node.Type_, Node.Data, Node.FirstChild,
        Node.children]
  | .mk t d ns attr (.mk t1 d1 ns1 attr1 cs1 :: rest) => by
      simp [mapAttr, mapAttrList, scriptEntry, Node.Type_, Node.Data, Node.FirstChild,
        Node.children]

mutual
theorem traverse_mapAttr (f : List Attribute → List Attribute) :
    ∀ (n : Node) (scripts : List String), traverse (mapAttr f n) scripts = traverse n scripts
  | .mk t d ns attr cs, scripts => by
      have h := scriptEntry_mapAttr f (.mk t d ns attr cs)
      rw [mapAttr] at h
      rw [mapAttr, traverse, traverse, traverseSiblings_mapAttr f cs, h]
theorem traverseSiblings_mapAttr (f : List Attribute → List Attribute) :
    ∀ (cs : List Node) (scripts : List String),
      traverseSiblings (mapAttrList f cs) scripts = traverseSiblings cs scripts
  | [], scripts => by rw [mapAttrList]
  | c :: rest, scripts => by
      rw [mapAttrList, traverseSiblings, traverseSiblings, traverse_mapAttr f c,
        traverseSiblings_mapAttr f rest]
end

theorem scriptEntry_isSome (n : Node) :
    (scriptEntry n).isSome = (isScriptElement n && !n.children.isEmpty) := by
  cases n with
  | mk t d ns attr cs =>
      cases cs with
      | nil =>
          by_cases h : t = NodeType.ElementNode ∧ d = "script" <;>
            simp [scriptEntry, isScriptElement, Node.Type_, Node.Data, Node.FirstChild,
              Node.children, h]
      | cons c rest =>
          by_cases h : t = NodeType.ElementNode ∧ d = "script" <;>
            simp [scriptEntry, isScriptElement, Node.Type_, Node.Data, Node.FirstChild,
              Node.children, h]

theorem length_filterMap_eq_countP {α β : Type} (f : α → Option β) :
    ∀ l : List α, (l.filterMap f).length = l.countP (fun a => (f a).isSome)
  | [] => rfl
  | a :: l => by
      rw [List.filterMap_cons, List.countP_cons, ← length_filterMap_eq_countP f l]
      cases f a <;> simp

/-! ## Lemmas: the compiled patterns against the fragments -/

theorem ofNat_toNat_small (n : Nat) (h : n < 55296) : (Char.ofNat n).toNat = n := by
  have hv : n.isValidChar := Or.inl h
  simp only [Char.ofNat, hv, dif_pos]
  rfl

theorem toLower_toNat (c : Char) :
    c.toLower.toNat = if 65 ≤ c.toNat ∧ c.toNat ≤ 90 then c.toNat + 32 else c.toNat := by
  unfold Char.toLower
  simp only [ge_iff_le]
  split_ifs with h1
  · exact ofNat_toNat_small _ (by omega)
  · rfl

theorem char_eq_iff_toNat (a b : Char) : a = b ↔ a.toNat = b.toNat := by
  constructor
  · rintro rfl; rfl
  · intro h
    rw [← Char.ofNat_toNat a, ← Char.ofNat_toNat b, h]

theorem mem_kVariants (a : Char) :
    a ∈ kVariants ↔ a.toNat = 107 ∨ a.toNat = 75 ∨ a.toNat = 0x212A := by
  simp only [kVariants, List.mem_cons, List.mem_singleton, List.not_mem_nil, or_false,
    char_eq_iff_toNat a, ofNat_toNat_small 0x212A (by decide)]
  rfl

theorem mem_sVariants (a : Char) :
    a ∈ sVariants ↔ a.toNat = 115 ∨ a.toNat = 83 ∨ a.toNat = 0x17F := by
  simp only [sVariants, List.mem_cons, List.mem_singleton, List.not_mem_nil, or_false,
    char_eq_iff_toNat a, ofNat_toNat_small 0x17F (by decide)]
  rfl

theorem foldKey_eq_iff (a b : Char) : foldKey a = foldKey b ↔ sameLetter a b := by
  unfold sameLetter
  rw [char_eq_iff_toNat, toLower_toNat, toLower_toNat, mem_kVariants, mem_kVariants,
    mem_sVariants, mem_sVariants]
  unfold foldKey
  split_ifs <;> omega

theorem lit_test_iff (c x : Char) : (CharClass.lit true c).test x = true ↔ sameLetter c x := by
  simp only [CharClass.test, charEq, if_true, beq_iff_eq, foldKey_eq_iff]

theorem space_test_iff (x : Char) : CharClass.space.test x = true ↔ isSpace x := by
  simp only [CharClass.test, Bool.or_eq_true, beq_iff_eq, isSpace, char_eq_iff_toNat x,
    ofNat_toNat_small 12 (by decide)]
  constructor
  · rintro ((((h | h) | h) | h) | h)
    · exact Or.inl h
    · exact Or.inr (Or.inl h)
    · exact Or.inr (Or.inr (Or.inl h))
    · exact Or.inr (Or.inr (Or.inr (Or.inl h)))
    · exact Or.inr (Or.inr (Or.inr (Or.inr h)))
  · rintro (h | h | h | h | h)
    · exact Or.inl (Or.inl (Or.inl (Or.inl h)))
    · exact Or.inl (Or.inl (Or.inl (Or.inr h)))
    · exact Or.inl (Or.inl (Or.inr h))
    · exact Or.inl (Or.inr h)
    · exact Or.inr h

theorem dot_test_iff (x : Char) : CharClass.dot.test x = true ↔ x ≠ '\n' := by
  simp only [CharClass.test, bne_iff_ne, ne_eq, char_eq_iff_toNat x]
  rfl

theorem quote_test_iff (x : Char) :
    (CharClass.set true [Char.ofNat 39, '"']).test x = true ↔
      (x = Char.ofNat 39 ∨ x = '"') := by
  have h39 : foldKey (Char.ofNat 39) = 39 := by decide
  have h34 : foldKey '"' = 34 := by decide
  have e39 := foldKey_small x 39 (by omega)
  have e34 := foldKey_small x 34 (by omega)
  simp only [CharClass.test, List.any_cons, List.any_nil, Bool.or_false, Bool.or_eq_true,
    charEq, if_true, beq_iff_eq, h39, h34, char_eq_iff_toNat x,
    ofNat_toNat_small 39 (by decide)]
  constructor
  · rintro (h | h)
    · exact Or.inl (e39.mp h.symm)
    · exact Or.inr (e34.mp h.symm)
  · rintro (h | h)
    · exact Or.inl (e39.mpr h).symm
    · exact Or.inr (e34.mpr h).symm

theorem accepts_star_chr (k : CharClass) : ∀ u : List Char,
    (Regex.star (.chr k)).Accepts u ↔ ∀ c, c ∈ u → k.test c = true
  | [] => by
      constructor
      · intro _ c hc; cases hc
      · intro _; exact .starNil _
  | x :: xs => by
      have ih := accepts_star_chr k xs
      constructor
      · intro h
        obtain ⟨u, v, hxs, hu, hv⟩ := accepts_star_cons h x xs rfl
        obtain ⟨y, hy, hk⟩ := (accepts_chr_iff k _).mp hu
        simp only [List.cons.injEq] at hy
        obtain ⟨rfl, rfl⟩ := hy
        simp only [List.nil_append] at hxs
        subst hxs
        intro c hc
        rcases List.mem_cons.mp hc with rfl | hc
        · exact hk
        · exact ih.mp hv c hc
      · intro h
        exact Regex.Accepts.starMore (.chr k) [x] xs
          (.chr k x (h x (List.mem_cons_self _ _)))
          (ih.mpr (fun c hc => h c (List.mem_cons_of_mem _ hc)))

theorem catAtoms_accepts : ∀ (atoms : List Regex) (w : List Char),
    (catAtoms atoms).Accepts w ↔ seqAccepts atoms w
  | [], w => by simp only [catAtoms, seqAccepts, accepts_eps_iff]
  | [a], w => by
      simp only [catAtoms, seqAccepts]
      constructor
      · intro h; exact ⟨w, [], by simp, h, rfl⟩
      · rintro ⟨u, v, rfl, hu, rfl⟩; simpa using hu
  | a :: b :: rest, w => by
      simp only [catAtoms, accepts_cat_iff, catAtoms_accepts (b :: rest)]
      rfl

theorem seqAccepts_append : ∀ (as bs : List Regex) (w : List Char),
    seqAccepts (as ++ bs) w ↔ ∃ u v, w = u ++ v ∧ seqAccepts as u ∧ seqAccepts bs v
  | [], bs, w => by
      simp only [List.nil_append, seqAccepts]
      constructor
      · intro h; exact ⟨[], w, rfl, rfl, h⟩
      · rintro ⟨u, v, rfl, rfl, h⟩; exact h
  | a :: as, bs, w => by
      have ih := seqAccepts_append as bs
      show (∃ u v, w = u ++ v ∧ a.Accepts u ∧ seqAccepts (as ++ bs) v) ↔
        ∃ u v, w = u ++ v ∧ (∃ u1 v1, u = u1 ++ v1 ∧ a.Accepts u1 ∧ seqAccepts as v1) ∧
          seqAccepts bs v
      constructor
      · rintro ⟨u, v, rfl, hu, hv⟩
        obtain ⟨u2, v2, rfl, h1, h2⟩ := (ih v).mp hv
        exact ⟨u ++ u2, v2, by simp, ⟨u, u2, rfl, hu, h1⟩, h2⟩
      · rintro ⟨u, v, rfl, ⟨u1, u2, rfl, hu, h1⟩, h2⟩
        exact ⟨u1, u2 ++ v, by simp, hu, (ih (u2 ++ v)).mpr ⟨u2, v, rfl, h1, h2⟩⟩

theorem seqAccepts_text : ∀ (s u : List Char),
    seqAccepts (s.map (fun c => Regex.chr (.lit true c))) u ↔ sameText s u
  | [], [] => by simp [seqAccepts, sameText]
  | [], _ :: _ => by simp [seqAccepts, sameText]
  | c :: s, [] => by
      simp only [List.map_cons, seqAccepts, sameText, iff_false]
      rintro ⟨u, v, huv, hu, _⟩
      obtain ⟨x, hx, _⟩ := (accepts_chr_iff _ _).mp hu
      subst hx
      simp at huv
  | c :: s, x :: xs => by
      simp only [List.map_cons, seqAccepts, sameText, accepts_chr_iff, lit_test_iff]
      constructor
      · rintro ⟨u, v, huv, ⟨y, rfl, hy⟩, hv⟩
        simp only [List.singleton_append, List.cons.injEq] at huv
        obtain ⟨h1, h2⟩ := huv
        subst h1
        subst h2
        exact ⟨hy, (seqAccepts_text s _).mp hv⟩
      · rintro ⟨hx, hxs⟩
        exact ⟨[x], xs, rfl, ⟨x, rfl, hx⟩, (seqAccepts_text s xs).mpr hxs⟩

theorem seqAccepts_singleton (a : Regex) (u : List Char) :
    seqAccepts [a] u ↔ a.Accepts u := by
  simp only [seqAccepts]
  constructor
  · rintro ⟨u1, v, rfl, hu, rfl⟩; simpa using hu
  · intro h; exact ⟨u, [], by simp, h, rfl⟩

theorem seqAccepts_atoms (p : Piece) (u : List Char) :
    seqAccepts p.atoms u ↔ p.fits u := by
  cases p with
  | text s => exact seqAccepts_text s.data u
  | spaces =>
      simp only [Piece.atoms, Piece.fits, seqAccepts_singleton, accepts_star_chr,
        space_test_iff]
  | quote =>
      simp only [Piece.atoms, Piece.fits, seqAccepts_singleton, accepts_chr_iff,
        quote_test_iff]
  | sameLine =>
      simp only [Piece.atoms, Piece.fits, seqAccepts_singleton, accepts_star_chr,
        dot_test_iff]

theorem seqAccepts_fragment : ∀ (fragment : List Piece) (w : List Char),
    seqAccepts (fragment.flatMap Piece.atoms) w ↔ isInstance fragment w
  | [], w => by simp [seqAccepts, isInstance]
  | p :: ps, w => by
      simp only [List.flatMap_cons, seqAccepts_append, seqAccepts_atoms,
        seqAccepts_fragment ps, isInstance]

theorem compile_signatureFragments :
    ∀ sig, sig ∈ signatureFragments →
      compile sig.1 = some (catAtoms (sig.2.flatMap Piece.atoms)) ∧
      (catAtoms (sig.2.flatMap Piece.atoms)).folds = true := by
  decide

theorem UnsafePatterns_labels : UnsafePatterns = signatureFragments.map Prod.fst := by
  decide

theorem matchString_iff_containsFragment (sig : String × List Piece)
    (hsig : sig ∈ signatureFragments) (script : String) :
    MatchString sig.1 script = true ↔ containsFragment sig.2 script.data := by
  rw [matchString_iff (compile_signatureFragments sig hsig).1]
  simp only [Regex.Occurs, containsFragment, catAtoms_accepts, seqAccepts_fragment]

theorem sameUpToCase_of_sameText : ∀ (u v : List Char), sameText u v → sameUpToCase u v
  | [], [], _ => trivial
  | [], _ :: _, h => by simp [sameText] at h
  | _ :: _, [], h => by simp [sameText] at h
  | a :: u, b :: v, h => by
      simp only [sameText] at h
      exact ⟨(foldKey_eq_iff a b).mpr h.1, sameUpToCase_of_sameText u v h.2⟩

/-! ## Theorems: pattern matcher -/

/-- C1. `ScanForUnsafePatterns` returns, script by script and signature by signature in
order, exactly one finding for each pair of a script and a signature whose fragment occurs
in the script, and nothing else.  The signatures are the fifteen of the hand-written list;
the pattern of a signature matches a script exactly when the script contains an instance of
its fragment, letters in any case; a finding is the label of the signature followed by the
whole script; the result is empty when no fragment occurs in any script; a match does not
change when the case of letters of the script changes.  Texts are sequences of Unicode
characters. -/
theorem ScanForUnsafePatterns_exact (scripts : List String) :
    UnsafePatterns = signatureFragments.map Prod.fst ∧
    ScanForUnsafePatterns scripts =
        scripts.flatMap (fun script =>
          (signatureFragments.filter (fun sig =>
              @decide (containsFragment sig.2 script.data) (Classical.propDecidable _))).map
            (fun sig => "Pattern \x27" ++ sig.1 ++ "\x27 found in script:\n" ++ script)) ∧
    (∀ sig, sig ∈ signatureFragments → ∀ script : String,
        MatchString sig.1 script = true ↔ containsFragment sig.2 script.data) ∧
    (∀ finding, finding ∈ ScanForUnsafePatterns scripts ↔
        ∃ script sig, script ∈ scripts ∧ sig ∈ signatureFragments ∧
          containsFragment sig.2 script.data ∧
          finding = "Pattern \x27" ++ sig.1 ++ "\x27 found in script:\n" ++ script) ∧
    ((∀ script sig, script ∈ scripts → sig ∈ signatureFragments →
        ¬ containsFragment sig.2 script.data) →
      ScanForUnsafePatterns scripts = []) ∧
    (∀ sig, sig ∈ signatureFragments → ∀ s t : String, sameText s.data t.data →
        MatchString sig.1 s = MatchString sig.1 t) := by
  have hscan : ScanForUnsafePatterns scripts =
      scripts.flatMap (fun script =>
        (signatureFragments.filter (fun sig =>
            @decide (containsFragment sig.2 script.data) (Classical.propDecidable _))).map
          (fun sig => "Pattern \x27" ++ sig.1 ++ "\x27 found in script:\n" ++ script)) := by
    rw [ScanForUnsafePatterns, scanScripts_eq, List.nil_append]
    congr 1
    funext script
    rw [UnsafePatterns_labels, List.filter_map, List.map_map]
    have hfilter : signatureFragments.filter
          ((fun pattern => MatchString pattern script) ∘ Prod.fst) =
        signatureFragments.filter (fun sig =>
          @decide (containsFragment sig.2 script.data) (Classical.propDecidable _)) := by
      apply List.filter_congr
      intro sig hsig
      have h := matchString_iff_containsFragment sig hsig script
      show MatchString sig.1 script =
        @decide (containsFragment sig.2 script.data) (Classical.propDecidable _)
      by_cases hc : containsFragment sig.2 script.data
      · rw [h.mpr hc]
        exact (@decide_eq_true _ (Classical.propDecidable _) hc).symm
      · have hm : MatchString sig.1 script = false := by
          cases hb : MatchString sig.1 script
          · rfl
          · exact absurd (h.mp hb) hc
        rw [hm]
        exact (@decide_eq_false _ (Classical.propDecidable _) hc).symm
    rw [hfilter]
    rfl
  have hmem : ∀ finding, finding ∈ ScanForUnsafePatterns scripts ↔
      ∃ script sig, script ∈ scripts ∧ sig ∈ signatureFragments ∧
        containsFragment sig.2 script.data ∧
        finding = "Pattern \x27" ++ sig.1 ++ "\x27 found in script:\n" ++ script := by
    intro finding
    rw [hscan, List.mem_flatMap]
    constructor
    · rintro ⟨script, hs, hf⟩
      rw [List.mem_map] at hf
      obtain ⟨sig, hp, rfl⟩ := hf
      rw [List.mem_filter] at hp
      exact ⟨script, sig, hs, hp.1, @of_decide_eq_true _ (Classical.propDecidable _) hp.2, rfl⟩
    · rintro ⟨script, sig, hs, hp, hocc, rfl⟩
      refine ⟨script, hs, ?_⟩
      rw [List.mem_map]
      exact ⟨sig, List.mem_filter.mpr ⟨hp, @decide_eq_true _ (Classical.propDecidable _) hocc⟩, rfl⟩
  refine ⟨UnsafePatterns_labels, hscan, matchString_iff_containsFragment, hmem, ?_, ?_⟩
  · intro hnone
    apply List.eq_nil_iff_forall_not_mem.mpr
    intro finding hf
    obtain ⟨script, sig, hs, hp, hocc, _⟩ := (hmem finding).mp hf
    exact hnone script sig hs hp hocc
  · intro sig hsig s t hst
    obtain ⟨hc, hfold⟩ := compile_signatureFragments sig hsig
    simp only [MatchString, hc]
    exact search_of_sameUpToCase _ hfold s.data t.data (sameUpToCase_of_sameText _ _ hst)

/-- Witness of C1: the script `x = EVAL(y)` contains the fragment `eval(` in upper case, so
the pattern of that signature matches it and its finding is reported. -/
theorem ScanForUnsafePatterns_exact_witness :
    MatchString "(?i)eval\\(" "x = EVAL(y)" = true ∧
    "Pattern \x27(?i)eval\\(\x27 found in script:\nx = EVAL(y)" ∈
      ScanForUnsafePatterns ["safe()", "x = EVAL(y)"] := by
  have hsig : (("(?i)eval\\(", [Piece.text "eval("]) : String × List Piece) ∈
      signatureFragments := by decide
  have hocc : containsFragment [Piece.text "eval("] ("x = EVAL(y)" : String).data :=
    ⟨"x = ".data, "EVAL(".data, "y)".data, rfl,
      "EVAL(".data, [], rfl,
      ⟨Or.inl rfl, Or.inl rfl, Or.inl rfl, Or.inl rfl, Or.inl rfl, trivial⟩, rfl⟩
  have h := ScanForUnsafePatterns_exact ["safe()", "x = EVAL(y)"]
  exact ⟨(h.2.2.1 _ hsig "x = EVAL(y)").mpr hocc,
    (h.2.2.2.1 _).mpr ⟨"x = EVAL(y)", _, by simp, hsig, hocc, rfl⟩⟩

/-- C9. On the single script `document.cookie` the matcher returns exactly one finding, the one
of the tenth pattern of the list of fifteen, the cookie-access pattern. -/
theorem ScanForUnsafePatterns_document_cookie :
    ScanForUnsafePatterns ["document.cookie"] =
        ["Pattern \x27(?i)document\\.cookie\x27 found in script:\ndocument.cookie"] ∧
    UnsafePatterns.length = 15 ∧
    UnsafePatterns.get? 9 = some "(?i)document\\.cookie" ∧
    UnsafePatterns.filter (fun pattern => MatchString pattern "document.cookie") =
        ["(?i)document\\.cookie"] := by
  decide

/-! ## Theorems: script extractor -/

/-- C2, as stated, fails: for the tree of `<svg><script><g></g></script></svg>` the result is
`["g"]`, the tag of the element that is the first child of the script element, although no
script element of the tree has a text node as first child. -/
theorem ExtractScripts_non_text_child :
    ExtractScripts (fun _ => .ok svgScriptDoc) "<svg><script><g></g></script></svg>" =
        .ok ["g"] ∧
    (preorder svgScriptDoc).filterMap textScriptEntry = [] :=
  ⟨congrArg Except.ok (by decide), by decide⟩

/-- C2, amended. When the parse gives a tree, `ExtractScripts` returns exactly, in depth-first
pre-order, the `Data` of the first child of each element node with tag `script` that has a
child, whatever the type of that child; script elements without children give nothing, so
with `N` script elements that have a child and `M` that have none the result has `N`
entries. -/
theorem ExtractScripts_preorder (Parse : String → Except String Node) (htmlSource : String)
    (doc : Node) (h : Parse htmlSource = .ok doc) :
    ExtractScripts Parse htmlSource = .ok ((preorder doc).filterMap scriptEntry) ∧
    (∀ n, scriptEntry n =
        if isScriptElement n = true then n.children.head?.map Node.Data else none) ∧
    (∀ N M,
        (preorder doc).countP (fun n => isScriptElement n && !n.children.isEmpty) = N →
        (preorder doc).countP (fun n => isScriptElement n && n.children.isEmpty) = M →
        ((preorder doc).filterMap scriptEntry).length = N ∧
        (preorder doc).countP isScriptElement = N + M) := by
  refine ⟨?_, ?_, ?_⟩
  · simp only [ExtractScripts, h, traverse_eq, List.nil_append]
  · intro n
    cases hn : n.children <;>
      simp [scriptEntry, isScriptElement, Node.FirstChild, hn]
  · intro N M hN hM
    refine ⟨?_, ?_⟩
    · rw [length_filterMap_eq_countP, ← hN]
      congr 1
      funext n
      exact scriptEntry_isSome n
    · rw [← hN, ← hM]
      generalize preorder doc = l
      induction l with
      | nil => rfl
      | cons a l ih =>
          simp only [List.countP_cons, ih]
          cases isScriptElement a <;> cases a.children.isEmpty <;> simp <;> omega

/-- Witness of C2 (amended): a tree with two script elements that have a body and one with
only a `src` attribute gives the two bodies, in document order. -/
theorem ExtractScripts_preorder_witness :
    ExtractScripts (fun _ => .ok threeScriptDoc) "" = .ok ["a()", "c()"] ∧
    (preorder threeScriptDoc).countP isScriptElement = 2 + 1 := by
  have h := ExtractScripts_preorder (fun _ => .ok threeScriptDoc) "" threeScriptDoc rfl
  exact ⟨h.1.trans (congrArg Except.ok (by decide)), (h.2.2 2 1 (by decide) (by decide)).2⟩

/-- C8, as stated, fails: the script element of `<script src="a.js">alert(1)</script>` carries
a `src` attribute and its body is returned. -/
theorem ExtractScripts_src_with_body :
    ExtractScripts (fun _ => .ok srcScriptDoc) "<script src=\"a.js\">alert(1)</script>" =
        .ok ["alert(1)"] ∧
    (preorder srcScriptDoc).filterMap inlineScriptEntry = [] :=
  ⟨congrArg Except.ok (by decide), by decide⟩

/-- C8, amended. Every entry returned by `ExtractScripts` is the `Data` of the first child of
a script element of the tree, and every script element with a child gives such an entry,
with or without a `src` attribute: attributes are not read, the result is the same when the
attributes of the tree are replaced by any others. -/
theorem ExtractScripts_ignores_attributes (Parse : String → Except String Node)
    (htmlSource : String) (doc : Node) (h : Parse htmlSource = .ok doc) :
    ∃ scripts, ExtractScripts Parse htmlSource = .ok scripts ∧
      (∀ entry, entry ∈ scripts ↔
        ∃ n c, n ∈ preorder doc ∧ isScriptElement n = true ∧ n.FirstChild = some c ∧
          entry = c.Data) ∧
      (∀ (f : List Attribute → List Attribute) (Parse2 : String → Except String Node),
        Parse2 htmlSource = .ok (mapAttr f doc) →
        ExtractScripts Parse2 htmlSource = .ok scripts) := by
  refine ⟨(preorder doc).filterMap scriptEntry, ?_, ?_, ?_⟩
  · simp only [ExtractScripts, h, traverse_eq, List.nil_append]
  · intro entry
    rw [List.mem_filterMap]
    constructor
    · rintro ⟨n, hn, he⟩
      unfold scriptEntry at he
      split_ifs at he with hs
      cases hc : n.FirstChild with
      | none => rw [hc] at he; cases he
      | some c =>
          rw [hc] at he
          refine ⟨n, c, hn, ?_, hc, ?_⟩
          · simp [isScriptElement, hs]
          · exact (Option.some.inj he).symm
    · rintro ⟨n, c, hn, hs, hc, rfl⟩
      refine ⟨n, hn, ?_⟩
      simp only [isScriptElement, decide_eq_true_eq] at hs
      simp [scriptEntry, hs, hc]
  · intro f Parse2 h2
    simp only [ExtractScripts, h2]
    rw [traverse_mapAttr, traverse_eq, List.nil_append]

/-- Witness of C8 (amended): the script element with `src="a.js"` and body `alert(1)` gives
the entry `alert(1)`, and so does the same tree with all attributes removed. -/
theorem ExtractScripts_ignores_attributes_witness :
    ∃ scripts, ExtractScripts (fun _ => .ok srcScriptDoc) "" = .ok scripts ∧
      (∀ entry, entry ∈ scripts ↔
        ∃ n c, n ∈ preorder srcScriptDoc ∧ isScriptElement n = true ∧ n.FirstChild = some c ∧
          entry = c.Data) ∧
      (∀ (f : List Attribute → List Attribute) (Parse2 : String → Except String Node),
        Parse2 "" = .ok (mapAttr f srcScriptDoc) →
        ExtractScripts Parse2 "" = .ok scripts) :=
  ExtractScripts_ignores_attributes (fun _ => .ok srcScriptDoc) "" srcScriptDoc rfl

/-! ## Lemmas: delays and the retry loop -/

theorem wrap64_of_range {x : Int} (hlo : -(2 ^ 63) ≤ x) (hhi : x < 2 ^ 63) : wrap64 x = x := by
  unfold wrap64
  rw [Int.emod_eq_of_lt (by omega) (by omega)]
  omega

theorem tdiv_two_of_pos {n : Int} (h : 1 ≤ n) : Int.tdiv n 2 = n / 2 := by
  exact Int.tdiv_eq_ediv (by omega) (by omega)

theorem Intn_of_pos {n : Int} (h : 1 ≤ n) (draw : Nat) : Intn n draw = .done ((draw : Int) % n) := by
  unfold Intn
  rw [if_neg (by omega)]

theorem Intn_of_nonpos {n : Int} (h : n ≤ 0) (draw : Nat) :
    Intn n draw = .panic "invalid argument to Intn" := by
  unfold Intn
  rw [if_pos h]

theorem randomDelay_of_pos {rateLimit : Int} (h : 1 ≤ rateLimit) (draw : Nat) :
    randomDelay rateLimit draw =
      ⟨[.sleep (delayOf rateLimit ((draw : Int) % rateLimit))], .done ()⟩ := by
  unfold randomDelay
  rw [Intn_of_pos h]

theorem randomDelay_of_nonpos {rateLimit : Int} (h : rateLimit ≤ 0) (draw : Nat) :
    randomDelay rateLimit draw = ⟨[], .panic "invalid argument to Intn"⟩ := by
  unfold randomDelay
  rw [Intn_of_nonpos h]

theorem delayOf_eq {rateLimit r : Int} (h1 : 1 ≤ rateLimit) (hmax : rateLimit ≤ 6148914691237)
    (h0 : 0 ≤ r) (hr : r < rateLimit) :
    delayOf rateLimit r = (r + rateLimit / 2) * Millisecond := by
  unfold delayOf Millisecond
  rw [tdiv_two_of_pos h1]
  rw [wrap64_of_range (x := r + rateLimit / 2) (by omega) (by omega)]
  exact wrap64_of_range (by omega) (by omega)

theorem andThen_done {α β : Type} (evs : List Event) (a : α) (f : α → Prog β) :
    Prog.andThen ⟨evs, .done a⟩ f = ⟨evs ++ (f a).events, (f a).result⟩ := rfl

theorem andThen_panic {α β : Type} (evs : List Event) (msg : String) (f : α → Prog β) :
    Prog.andThen ⟨evs, .panic msg⟩ f = ⟨evs, .panic msg⟩ := rfl

theorem requestCount_append (u v : List Event) :
    requestCount (u ++ v) = requestCount u + requestCount v := by
  induction u with
  | nil => simp [requestCount]
  | cons e u ih =>
      cases e with
      | request url agent =>
          show requestCount (u ++ v) + 1 = requestCount u + 1 + requestCount v
          rw [ih]; omega
      | sleep d => exact ih
      | send line => exact ih

theorem requestCount_andThen_le {α β : Type} (p : Prog α) (f : α → Prog β) (k : Nat)
    (h : ∀ a, requestCount (f a).events ≤ k) :
    requestCount (p.andThen f).events ≤ requestCount p.events + k := by
  obtain ⟨evs, res⟩ := p
  cases res with
  | done a =>
      rw [andThen_done, requestCount_append]
      have := h a
      simp only
      omega
  | panic msg =>
      rw [andThen_panic]
      simp only
      omega

theorem requestCount_randomDelay (rateLimit : Int) (draw : Nat) :
    requestCount (randomDelay rateLimit draw).events = 0 := by
  unfold randomDelay
  cases Intn rateLimit draw <;> rfl

theorem requestCount_fetchLoop_le (requestErr : Option String) (proxyURL : String)
    (rateLimit : Int) (retryAfter : Bool) (world : Nat → Attempt) :
    ∀ (left retries : Nat) (lastErr : Option String),
      requestCount (fetchLoop requestErr proxyURL rateLimit retryAfter world left retries
        lastErr).events ≤ left
  | 0, _, _ => by simp [fetchLoop, requestCount]
  | left + 1, retries, lastErr => by
      have ih := requestCount_fetchLoop_le requestErr proxyURL rateLimit retryAfter world left
        (retries + 1)
      unfold fetchLoop
      cases requestErr with
      | some err => simp [requestCount]
      | none =>
          simp only
          refine le_trans (requestCount_andThen_le _ _ left ?_) (by simp [requestCount]; omega)
          intro _
          cases (world retries).reply with
          | failed err =>
              simp only
              refine le_trans (requestCount_andThen_le _ _ left (fun _ => ih _)) ?_
              rw [requestCount_randomDelay]; omega
          | responded resp =>
              simp only
              split_ifs
              · cases headerDelay retryAfter resp with
                | some retryDelay =>
                    simp only
                    refine le_trans (requestCount_andThen_le _ _ left (fun _ => ih _)) ?_
                    simp [requestCount]
                | none =>
                    simp only
                    refine le_trans (requestCount_andThen_le _ _ left (fun _ => ih _)) ?_
                    rw [requestCount_randomDelay]; omega
              · simp [requestCount]
              · cases resp.Body <;> simp [requestCount]

/-- One attempt after which the loop goes on: a request, a sleep, the rest of the loop. -/
theorem fetchLoop_retry (proxyURL : String) (rateLimit : Int) (retryAfter : Bool)
    (world : Nat → Attempt) (left retries : Nat) (lastErr : Option String)
    (hrl : 1 ≤ rateLimit) (hretry : (world retries).reply.retryable = true) :
    fetchLoop none proxyURL rateLimit retryAfter world (left + 1) retries lastErr =
      ⟨.request proxyURL (getRandomUserAgent (world retries).agentDraw) ::
        .sleep (pauseAfter rateLimit retryAfter (world retries)) ::
        (fetchLoop none proxyURL rateLimit retryAfter world left (retries + 1)
          (some (world retries).reply.errorText)).events,
       (fetchLoop none proxyURL rateLimit retryAfter world left (retries + 1)
          (some (world retries).reply.errorText)).result⟩ := by
  conv_lhs => rw [fetchLoop]
  unfold pauseAfter
  cases hreply : (world retries).reply with
  | failed err =>
      simp only [hreply, randomDelay_of_pos hrl, andThen_done, Reply.errorText,
        List.cons_append, List.nil_append]
  | responded resp =>
      rw [hreply] at hretry
      simp only [Reply.retryable, beq_iff_eq] at hretry
      simp only [hreply, hretry, if_true]
      cases headerDelay retryAfter resp with
      | some retryDelay =>
          simp only [andThen_done, Reply.errorText, List.cons_append, List.nil_append]
      | none =>
          simp only [randomDelay_of_pos hrl, andThen_done, Reply.errorText, List.cons_append,
            List.nil_append]

/-- The attempt that ends the loop: a request and the return. -/
theorem fetchLoop_terminal (proxyURL : String) (rateLimit : Int) (retryAfter : Bool)
    (world : Nat → Attempt) (left retries : Nat) (lastErr : Option String) (resp : Response)
    (hreply : (world retries).reply = .responded resp) (h429 : resp.StatusCode ≠ 429) :
    fetchLoop none proxyURL rateLimit retryAfter world (left + 1) retries lastErr =
      ⟨[.request proxyURL (getRandomUserAgent (world retries).agentDraw)],
       .done (if resp.StatusCode ≠ 200 then
                .error ("non-200 response: " ++ toString resp.StatusCode)
              else match resp.Body with
                | .error err => .error ("failed to read response body: " ++ err)
                | .ok body => .ok body)⟩ := by
  rw [fetchLoop]
  simp only [hreply, h429, if_false]
  by_cases h200 : resp.StatusCode = 200
  · simp only [h200, ne_eq, not_true_eq_false, if_false]
    cases resp.Body <;> rfl
  · simp only [ne_eq, h200, not_false_eq_true, if_true]
    rfl

/-- The loop after `count` attempts in a row after each of which it goes on. -/
theorem fetchLoop_retries (proxyURL : String) (rateLimit : Int) (retryAfter : Bool)
    (world : Nat → Attempt) (hrl : 1 ≤ rateLimit) (left : Nat) :
    ∀ (count retries : Nat) (lastErr : Option String),
      (∀ j, j < count → (world (retries + j)).reply.retryable = true) →
      ∃ lastErr2,
        (count = 0 → lastErr2 = lastErr) ∧
        (0 < count → lastErr2 = some (world (retries + count - 1)).reply.errorText) ∧
        fetchLoop none proxyURL rateLimit retryAfter world (left + count) retries lastErr =
          ⟨retryEvents proxyURL rateLimit retryAfter world retries count ++
            (fetchLoop none proxyURL rateLimit retryAfter world left (retries + count)
              lastErr2).events,
           (fetchLoop none proxyURL rateLimit retryAfter world left (retries + count)
              lastErr2).result⟩
  | 0, retries, lastErr, _ =>
      ⟨lastErr, fun _ => rfl, fun h => absurd h (by omega), by simp [retryEvents]⟩
  | count + 1, retries, lastErr, h => by
      have h0 : (world retries).reply.retryable = true := by simpa using h 0 (by omega)
      have hshift : ∀ j, j < count → (world (retries + 1 + j)).reply.retryable = true := by
        intro j hj
        have := h (j + 1) (by omega)
        rwa [show retries + (j + 1) = retries + 1 + j by omega] at this
      obtain ⟨lastErr2, hzero, hpos, heq⟩ :=
        fetchLoop_retries proxyURL rateLimit retryAfter world hrl left count (retries + 1)
          (some (world retries).reply.errorText) hshift
      refine ⟨lastErr2, fun hc => absurd hc (by omega), fun _ => ?_, ?_⟩
      · rcases Nat.eq_zero_or_pos count with hc | hc
        · rw [hzero hc, hc]
          rfl
        · rw [hpos hc, show retries + 1 + count - 1 = retries + (count + 1) - 1 by omega]
      · rw [show left + (count + 1) = (left + count) + 1 by omega,
          fetchLoop_retry proxyURL rateLimit retryAfter world (left + count) retries lastErr hrl h0,
          heq, show retries + 1 + count = retries + (count + 1) by omega]
        simp only [retryEvents, List.cons_append]

theorem requestCount_retryEvents (proxyURL : String) (rateLimit : Int) (retryAfter : Bool)
    (world : Nat → Attempt) : ∀ (count start : Nat),
      requestCount (retryEvents proxyURL rateLimit retryAfter world start count) = count
  | 0, _ => rfl
  | count + 1, start => by
      show requestCount (retryEvents proxyURL rateLimit retryAfter world (start + 1) count) + 1
        = count + 1
      rw [requestCount_retryEvents proxyURL rateLimit retryAfter world count (start + 1)]

/-! ## Theorems: fetcher -/

/-- C3. `FetchURL` issues at most five requests per call, whatever the attempts give.  In a
call with `rateLimit >= 1` (the case at every call from `worker`, whose pacing delay at
line 149 has returned) in which each of the five attempts ends in a transport error or a
response 429, the trace is five times a request and a sleep, and the call returns the error
of the fifth attempt; for five responses 429 that is the rate-limit error. -/
theorem FetchURL_retry_budget (NewRequest : String → Option String) (world : Nat → Attempt)
    (url : String) (rateLimit : Int) (retryAfter : Bool) :
    requestCount (FetchURL NewRequest world url rateLimit retryAfter).events ≤ 5 ∧
    (NewRequest ("https://api.allorigins.win/raw?url=" ++ url) = none → 1 ≤ rateLimit →
      (∀ i, i < 5 → (world i).reply.retryable = true) →
        FetchURL NewRequest world url rateLimit retryAfter =
          ⟨retryEvents ("https://api.allorigins.win/raw?url=" ++ url) rateLimit retryAfter
            world 0 5, .done (.error (world 4).reply.errorText)⟩ ∧
        requestCount (FetchURL NewRequest world url rateLimit retryAfter).events = 5) ∧
    (NewRequest ("https://api.allorigins.win/raw?url=" ++ url) = none → 1 ≤ rateLimit →
      (∀ i, i < 5 → ∃ resp, (world i).reply = .responded resp ∧ resp.StatusCode = 429) →
        (FetchURL NewRequest world url rateLimit false).result =
          .done (.error "rate limited (HTTP 429)")) := by
  have main : ∀ ra : Bool,
      NewRequest ("https://api.allorigins.win/raw?url=" ++ url) = none → 1 ≤ rateLimit →
      (∀ i, i < 5 → (world i).reply.retryable = true) →
        FetchURL NewRequest world url rateLimit ra =
          ⟨retryEvents ("https://api.allorigins.win/raw?url=" ++ url) rateLimit ra
            world 0 5, .done (.error (world 4).reply.errorText)⟩ := by
    intro ra hreq hrl hall
    obtain ⟨lastErr2, _, hpos, heq⟩ :=
      fetchLoop_retries ("https://api.allorigins.win/raw?url=" ++ url) rateLimit ra world
        hrl 0 5 0 none (fun j hj => by simpa using hall j hj)
    have h5 := hpos (by omega)
    simp only [Nat.zero_add, Nat.add_sub_cancel] at h5 heq
    rw [FetchURL, hreq, heq, h5]
    simp [fetchLoop, returnLastErr]
  refine ⟨requestCount_fetchLoop_le _ _ _ _ _ 5 0 none, ?_, ?_⟩
  · intro hreq hrl hall
    refine ⟨main retryAfter hreq hrl hall, ?_⟩
    rw [main retryAfter hreq hrl hall]
    exact requestCount_retryEvents _ _ _ _ 5 0
  · intro hreq hrl hall
    have hretry : ∀ i, i < 5 → (world i).reply.retryable = true := by
      intro i hi
      obtain ⟨resp, hresp, h429⟩ := hall i hi
      simp [hresp, Reply.retryable, h429]
    rw [main false hreq hrl hretry]
    obtain ⟨resp, hresp, _⟩ := hall 4 (by omega)
    simp [hresp, Reply.errorText]

/-- Witness of C3: five transport errors give the transport error of the last attempt after
five requests; five responses 429 without the flag give the rate-limit error. -/
theorem FetchURL_retry_budget_witness :
    (FetchURL (fun _ => none) alwaysFailed "http://a" 1000 false).result =
        .done (.error "failed to fetch URL: dial tcp: timeout") ∧
    requestCount (FetchURL (fun _ => none) alwaysFailed "http://a" 1000 false).events = 5 ∧
    (FetchURL (fun _ => none) (always429 "") "http://a" 1000 false).result =
        .done (.error "rate limited (HTTP 429)") := by
  have h1 := (FetchURL_retry_budget (fun _ => none) alwaysFailed "http://a" 1000 false).2.1
    rfl (by decide) (fun _ _ => rfl)
  have h2 := (FetchURL_retry_budget (fun _ => none) (always429 "") "http://a" 1000 false).2.2
    rfl (by decide) (fun _ _ => ⟨_, rfl, rfl⟩)
  exact ⟨by rw [h1.1]; rfl, h1.2, h2⟩

/-- C4, as stated, fails: a response 200 whose body cannot be read to the end does not
return the body; the call returns a read error (after one request, without retry). -/
theorem FetchURL_body_read_error :
    (∃ resp, (bodyReadFails 0).reply = .responded resp ∧ resp.StatusCode = 200) ∧
    FetchURL (fun _ => none) bodyReadFails "http://a" 1000 false =
      ⟨[.request "https://api.allorigins.win/raw?url=http://a" (getRandomUserAgent 0)],
       .done (.error "failed to read response body: unexpected EOF")⟩ ∧
    ¬ ∃ body, (FetchURL (fun _ => none) bodyReadFails "http://a" 1000 false).result =
      .done (.ok body) := by
  refine ⟨⟨_, rfl, rfl⟩, by decide, ?_⟩
  rintro ⟨body, h⟩
  have h2 : (FetchURL (fun _ => none) bodyReadFails "http://a" 1000 false).result =
      .done (.error "failed to read response body: unexpected EOF") := by decide
  rw [h2] at h
  cases h

/-- C4, amended. In a call with `rateLimit >= 1`, the first attempt (among the five) that
gets a response other than 429 ends the call: the trace is a request and a sleep for each
earlier attempt and then the request of this attempt, with nothing after it.  A response 200
whose body is read to the end returns the body; a response 200 whose body cannot be read
returns a read error; any other status returns the non-200 error.  None is retried. -/
theorem FetchURL_final_attempt (NewRequest : String → Option String) (world : Nat → Attempt)
    (url : String) (rateLimit : Int) (retryAfter : Bool) (i : Nat) (resp : Response)
    (hreq : NewRequest ("https://api.allorigins.win/raw?url=" ++ url) = none)
    (hrl : 1 ≤ rateLimit) (hi : i < 5)
    (hbefore : ∀ j, j < i → (world j).reply.retryable = true)
    (hreply : (world i).reply = .responded resp) (h429 : resp.StatusCode ≠ 429) :
    (FetchURL NewRequest world url rateLimit retryAfter).events =
        retryEvents ("https://api.allorigins.win/raw?url=" ++ url) rateLimit retryAfter world 0 i
          ++ [.request ("https://api.allorigins.win/raw?url=" ++ url)
                (getRandomUserAgent (world i).agentDraw)] ∧
    requestCount (FetchURL NewRequest world url rateLimit retryAfter).events = i + 1 ∧
    (∀ body, resp.StatusCode = 200 → resp.Body = .ok body →
        (FetchURL NewRequest world url rateLimit retryAfter).result = .done (.ok body)) ∧
    (∀ err, resp.StatusCode = 200 → resp.Body = .error err →
        (FetchURL NewRequest world url rateLimit retryAfter).result =
          .done (.error ("failed to read response body: " ++ err))) ∧
    (resp.StatusCode ≠ 200 →
        (FetchURL NewRequest world url rateLimit retryAfter).result =
          .done (.error ("non-200 response: " ++ toString resp.StatusCode))) := by
  obtain ⟨lastErr2, _, _, heq⟩ :=
    fetchLoop_retries ("https://api.allorigins.win/raw?url=" ++ url) rateLimit retryAfter world
      hrl (4 - i + 1) i 0 none (fun j hj => by simpa using hbefore j hj)
  rw [show 4 - i + 1 + i = 5 by omega, Nat.zero_add,
    fetchLoop_terminal _ _ _ _ (4 - i) i lastErr2 resp hreply h429] at heq
  simp only [FetchURL, hreq, heq]
  refine ⟨trivial, ?_, ?_, ?_, ?_⟩
  · simp only [requestCount_append, requestCount_retryEvents]
    rfl
  · intro body h200 hbody
    simp only [h200, hbody, ne_eq, not_true_eq_false, if_false]
  · intro err h200 hbody
    simp only [h200, hbody, ne_eq, not_true_eq_false, if_false]
  · intro h200
    simp only [ne_eq, h200, not_false_eq_true, if_true]

/-- Witness of C4 (amended): two responses 429, then a response 404: three requests, the
non-200 error, nothing after the third request. -/
theorem FetchURL_final_attempt_witness :
    requestCount (FetchURL (fun _ => none) (thirdResponds ⟨404, "", .ok "gone"⟩) "http://a"
      1000 false).events = 2 + 1 ∧
    (FetchURL (fun _ => none) (thirdResponds ⟨404, "", .ok "gone"⟩) "http://a" 1000
      false).result = .done (.error ("non-200 response: " ++ toString (404 : Int))) := by
  have h := FetchURL_final_attempt (fun _ => none) (thirdResponds ⟨404, "", .ok "gone"⟩)
    "http://a" 1000 false 2 ⟨404, "", .ok "gone"⟩ rfl (by decide) (by decide)
    (fun j hj => by
      have : thirdResponds ⟨404, "", .ok "gone"⟩ j = ⟨0, .responded ⟨429, "", .ok ""⟩, 7⟩ := by
        simp [thirdResponds, hj]
      rw [this]; rfl)
    rfl (by decide)
  exact ⟨h.2.1, h.2.2.2.2 (by decide)⟩

theorem Atoi_empty : Atoi "" = none := by decide

/-- C5, as stated, fails at the ends of the machine range.  With the flag set, the header
`Retry-After: 9223372037` holds an integer, yet the sleep asked for is not 9223372037 seconds:
the product with `time.Second` leaves the 64-bit range of `time.Duration` and the argument of
`time.Sleep` is negative.  The header `Retry-After: 99999999999999999999` holds an integer
too, yet `strconv.Atoi` fails on it and the random delay is applied (507 ms here). -/
theorem FetchURL_retry_after_out_of_range :
    Atoi "9223372037" = some 9223372037 ∧
    (FetchURL (fun _ => none) (always429 "9223372037") "http://a" 1000 true).events.take 2 =
      [.request "https://api.allorigins.win/raw?url=http://a" (getRandomUserAgent 0),
       .sleep (-9223372036709551616)] ∧
    (-9223372036709551616 : Int) ≠ 9223372037 * Second ∧
    Atoi "99999999999999999999" = none ∧
    (FetchURL (fun _ => none) (always429 "99999999999999999999") "http://a" 1000
        true).events.take 2 =
      [.request "https://api.allorigins.win/raw?url=http://a" (getRandomUserAgent 0),
       .sleep (507 * Millisecond)] := by
  decide

/-- C5, amended. On a response 429 the loop of `FetchURL` does the following.  If the flag is
set and `strconv.Atoi` reads the `Retry-After` header as `n` (a decimal integer in the 64-bit
range) with `-9223372036 <= n <= 9223372036`, it calls `time.Sleep` with exactly `n` seconds
and goes on to the next iteration without a random delay.  If the flag is off, the header is
absent or `strconv.Atoi` fails on it, then for `rateLimit >= 1` it applies one random delay
and goes on to the next iteration.  The next iteration is a further attempt while fewer than
five were made. -/
theorem fetchLoop_on_429 (proxyURL : String) (rateLimit : Int) (retryAfter : Bool)
    (world : Nat → Attempt) (left retries : Nat) (lastErr : Option String) (resp : Response)
    (hreply : (world retries).reply = .responded resp) (h429 : resp.StatusCode = 429) :
    (∀ n, retryAfter = true → Atoi resp.RetryAfter = some n →
      -9223372036 ≤ n → n ≤ 9223372036 →
      fetchLoop none proxyURL rateLimit retryAfter world (left + 1) retries lastErr =
        ⟨.request proxyURL (getRandomUserAgent (world retries).agentDraw) ::
          .sleep (n * Second) ::
          (fetchLoop none proxyURL rateLimit retryAfter world left (retries + 1)
            (some "rate limited (HTTP 429)")).events,
         (fetchLoop none proxyURL rateLimit retryAfter world left (retries + 1)
            (some "rate limited (HTTP 429)")).result⟩) ∧
    (retryAfter = false ∨ resp.RetryAfter = "" ∨ Atoi resp.RetryAfter = none →
      1 ≤ rateLimit →
      fetchLoop none proxyURL rateLimit retryAfter world (left + 1) retries lastErr =
        ⟨.request proxyURL (getRandomUserAgent (world retries).agentDraw) ::
          (randomDelay rateLimit (world retries).delayDraw).events ++
          (fetchLoop none proxyURL rateLimit retryAfter world left (retries + 1)
            (some "rate limited (HTTP 429)")).events,
         (fetchLoop none proxyURL rateLimit retryAfter world left (retries + 1)
            (some "rate limited (HTTP 429)")).result⟩ ∧
      randomDelay rateLimit (world retries).delayDraw =
        ⟨[.sleep (delayOf rateLimit (((world retries).delayDraw : Int) % rateLimit))],
          .done ()⟩) := by
  constructor
  · intro n hflag hn hlo hhi
    have hne : resp.RetryAfter ≠ "" := by
      intro he
      rw [he, Atoi_empty] at hn
      cases hn
    have hd : headerDelay retryAfter resp = some n := by
      simp [headerDelay, hflag, hne, hn]
    have hw : wrap64 (n * Second) = n * Second := by
      apply wrap64_of_range <;> unfold Second <;> omega
    rw [fetchLoop]
    simp only [hreply, h429, if_true, hd, andThen_done, List.cons_append, List.nil_append, hw]
  · intro hcase hrl
    have hd : headerDelay retryAfter resp = none := by
      rcases hcase with h | h | h
      · simp [headerDelay, h]
      · simp [headerDelay, h]
      · unfold headerDelay
        split_ifs <;> first | rfl | exact h
    refine ⟨?_, randomDelay_of_pos hrl _⟩
    rw [fetchLoop]
    simp only [hreply, h429, if_true, hd, randomDelay_of_pos hrl, andThen_done,
      List.cons_append, List.nil_append]

/-- Witness of C5 (amended): with the flag set and `Retry-After: 2`, the first attempt is
followed by a sleep of two seconds; with the flag off, by the random delay. -/
theorem fetchLoop_on_429_witness :
    (FetchURL (fun _ => none) (always429 "2") "http://a" 1000 true).events.take 2 =
      [.request "https://api.allorigins.win/raw?url=http://a" (getRandomUserAgent 0),
       .sleep (2 * Second)] ∧
    (FetchURL (fun _ => none) (always429 "2") "http://a" 1000 false).events.take 2 =
      [.request "https://api.allorigins.win/raw?url=http://a" (getRandomUserAgent 0),
       .sleep (delayOf 1000 7)] := by
  have h := fetchLoop_on_429 "https://api.allorigins.win/raw?url=http://a" 1000 true
    (always429 "2") 4 0 none ⟨429, "2", .ok ""⟩ rfl rfl
  have h2 := fetchLoop_on_429 "https://api.allorigins.win/raw?url=http://a" 1000 false
    (always429 "2") 4 0 none ⟨429, "2", .ok ""⟩ rfl rfl
  constructor
  · have e := h.1 2 rfl (by decide) (by decide) (by decide)
    show (fetchLoop none "https://api.allorigins.win/raw?url=http://a" 1000 true
      (always429 "2") 5 0 none).events.take 2 = _
    rw [e]
    rfl
  · have e := (h2.2 (Or.inl rfl) (by decide)).1
    show (fetchLoop none "https://api.allorigins.win/raw?url=http://a" 1000 false
      (always429 "2") 5 0 none).events.take 2 = _
    rw [e, randomDelay_of_pos (by decide)]
    rfl

/-! ## Theorems: random delay -/

/-- C7, as stated, fails for large rate limits: with `rateLimit = 6148914691238` and the draw
`6148914691237` the delay in milliseconds, times `time.Millisecond`, leaves the 64-bit
range of `time.Duration`; the duration computed is negative, not a number of milliseconds of
the interval. -/
theorem randomDelay_overflow :
    (1 : Int) ≤ 6148914691238 ∧
    randomDelay 6148914691238 6148914691237 = ⟨[.sleep (-9223372036853551616)], .done ()⟩ ∧
    ¬ ∃ m : Int, (6148914691238 : Int) / 2 ≤ m ∧ m < 6148914691238 + 6148914691238 / 2 ∧
        (-9223372036853551616 : Int) = m * Millisecond := by
  refine ⟨by decide, by decide, ?_⟩
  rintro ⟨m, hlo, _, hm⟩
  unfold Millisecond at hm
  omega

/-- C7, amended. For every rate limit with `1 <= rateLimit <= 6148914691237` (the rate limits
whose largest delay fits `time.Duration`) and every draw, `randomDelay` sleeps a whole number
`m` of milliseconds with `rateLimit/2 <= m < rateLimit + rateLimit/2`; every `m` of that
interval is the delay of exactly one value of `rand.Intn(rateLimit)`, namely
`m - rateLimit/2`, so a uniform value gives a uniform delay. -/
theorem randomDelay_interval (rateLimit : Int) (draw : Nat) (h1 : 1 ≤ rateLimit)
    (hmax : rateLimit ≤ 6148914691237) :
    (∃ m, rateLimit / 2 ≤ m ∧ m < rateLimit + rateLimit / 2 ∧
      randomDelay rateLimit draw = ⟨[.sleep (m * Millisecond)], .done ()⟩) ∧
    (∀ m, rateLimit / 2 ≤ m → m < rateLimit + rateLimit / 2 →
      ∃ r, (0 ≤ r ∧ r < rateLimit ∧ delayOf rateLimit r = m * Millisecond) ∧
        ∀ r2, 0 ≤ r2 → r2 < rateLimit → delayOf rateLimit r2 = m * Millisecond → r2 = r) ∧
    (∀ m (draw2 : Nat),
      randomDelay rateLimit draw2 = ⟨[.sleep (m * Millisecond)], .done ()⟩ ↔
        (draw2 : Int) % rateLimit = m - rateLimit / 2) := by
  have hmod : ∀ d : Nat, 0 ≤ (d : Int) % rateLimit ∧ (d : Int) % rateLimit < rateLimit :=
    fun d => ⟨Int.emod_nonneg _ (by omega), Int.emod_lt_of_pos _ (by omega)⟩
  refine ⟨?_, ?_, ?_⟩
  · refine ⟨(draw : Int) % rateLimit + rateLimit / 2, by have := hmod draw; omega,
      by have := hmod draw; omega, ?_⟩
    rw [randomDelay_of_pos h1, delayOf_eq h1 hmax (hmod draw).1 (hmod draw).2]
  · intro m hlo hhi
    refine ⟨m - rateLimit / 2, ⟨by omega, by omega, ?_⟩, ?_⟩
    · rw [delayOf_eq h1 hmax (by omega) (by omega)]
      congr 1
      omega
    · intro r2 h0 hr hd
      rw [delayOf_eq h1 hmax h0 hr] at hd
      unfold Millisecond at hd
      omega
  · intro m draw2
    rw [randomDelay_of_pos h1, delayOf_eq h1 hmax (hmod draw2).1 (hmod draw2).2]
    constructor
    · intro h
      injection h with hev _
      injection hev with hs _
      injection hs with hd
      unfold Millisecond at hd
      omega
    · intro h
      rw [h]
      congr 4
      omega

/-- Witness of C7 (amended): the default rate limit of 1000 ms with the draw 7 gives a sleep
of 507 ms, within `[500, 1500)`. -/
theorem randomDelay_interval_witness :
    ∃ m : Int, (1000 : Int) / 2 ≤ m ∧ m < 1000 + 1000 / 2 ∧
      randomDelay 1000 7 = ⟨[.sleep (m * Millisecond)], .done ()⟩ :=
  (randomDelay_interval 1000 7 (by decide) (by decide)).1

/-! ## Lemmas: the worker -/

theorem sentLines_append (u v : List Event) :
    sentLines (u ++ v) = sentLines u ++ sentLines v := by
  induction u with
  | nil => rfl
  | cons e u ih =>
      cases e with
      | request url agent => exact ih
      | sleep d => exact ih
      | send line =>
          show line :: sentLines (u ++ v) = line :: sentLines u ++ sentLines v
          rw [ih]; rfl

theorem sentLines_randomDelay (rateLimit : Int) (draw : Nat) :
    sentLines (randomDelay rateLimit draw).events = [] := by
  unfold randomDelay
  cases Intn rateLimit draw <;> rfl

theorem sentLines_andThen_nil {α β : Type} (p : Prog α) (f : α → Prog β)
    (hp : sentLines p.events = []) (hf : ∀ a, sentLines (f a).events = []) :
    sentLines (p.andThen f).events = [] := by
  obtain ⟨evs, res⟩ := p
  cases res with
  | done a =>
      rw [andThen_done]
      simp only [sentLines_append]
      rw [hf a]
      simpa using hp
  | panic msg =>
      rw [andThen_panic]
      exact hp

theorem sentLines_fetchLoop (requestErr : Option String) (proxyURL : String)
    (rateLimit : Int) (retryAfter : Bool) (world : Nat → Attempt) :
    ∀ (left retries : Nat) (lastErr : Option String),
      sentLines (fetchLoop requestErr proxyURL rateLimit retryAfter world left retries
        lastErr).events = []
  | 0, _, _ => rfl
  | left + 1, retries, lastErr => by
      have ih := sentLines_fetchLoop requestErr proxyURL rateLimit retryAfter world left
        (retries + 1)
      unfold fetchLoop
      cases requestErr with
      | some err => rfl
      | none =>
          simp only
          refine sentLines_andThen_nil _ _ rfl ?_
          intro _
          cases (world retries).reply with
          | failed err =>
              exact sentLines_andThen_nil _ _ (sentLines_randomDelay _ _) (fun _ => ih _)
          | responded resp =>
              simp only
              split_ifs
              · cases headerDelay retryAfter resp with
                | some retryDelay => exact sentLines_andThen_nil _ _ rfl (fun _ => ih _)
                | none =>
                    exact sentLines_andThen_nil _ _ (sentLines_randomDelay _ _) (fun _ => ih _)
              · rfl
              · cases resp.Body <;> rfl

theorem fetchLoop_returns (requestErr : Option String) (proxyURL : String)
    (rateLimit : Int) (retryAfter : Bool) (world : Nat → Attempt) (hrl : 1 ≤ rateLimit) :
    ∀ (left retries : Nat) (lastErr : Option String),
      ∃ fetched, (fetchLoop requestErr proxyURL rateLimit retryAfter world left retries
        lastErr).result = .done fetched
  | 0, _, lastErr => ⟨returnLastErr lastErr, rfl⟩
  | left + 1, retries, lastErr => by
      have ih := fetchLoop_returns requestErr proxyURL rateLimit retryAfter world hrl left
        (retries + 1)
      unfold fetchLoop
      cases requestErr with
      | some err => exact ⟨_, rfl⟩
      | none =>
          simp only [andThen_done]
          cases (world retries).reply with
          | failed err =>
              simp only [randomDelay_of_pos hrl, andThen_done]
              exact ih _
          | responded resp =>
              simp only
              split_ifs
              · cases headerDelay retryAfter resp with
                | some retryDelay =>
                    simp only [andThen_done]
                    exact ih _
                | none =>
                    simp only [randomDelay_of_pos hrl, andThen_done]
                    exact ih _
              · exact ⟨_, rfl⟩
              · cases resp.Body <;> exact ⟨_, rfl⟩

theorem report_result (cfg : Config) (url : String) (fetched : Except String String) :
    (report cfg url fetched).result = .done () := by
  unfold report
  cases fetched with
  | error err => simp only; split_ifs <;> rfl
  | ok html =>
      simp only
      cases ExtractScripts cfg.Parse html with
      | error err => simp only; split_ifs <;> rfl
      | ok scripts => simp only; split_ifs <;> rfl

theorem report_lines_le (cfg : Config) (url : String) (fetched : Except String String) :
    (sentLines (report cfg url fetched).events).length ≤ 1 := by
  unfold report
  cases fetched with
  | error err => simp only; split_ifs <;> simp [sentLines]
  | ok html =>
      simp only
      cases ExtractScripts cfg.Parse html with
      | error err => simp only; split_ifs <;> simp [sentLines]
      | ok scripts => simp only; split_ifs <;> simp [sentLines]

theorem workerIteration_blank (cfg : Config) (job : Job) (h : job.url = "") :
    workerIteration cfg job = ⟨[], .done ()⟩ := by
  unfold workerIteration
  rw [if_pos h]

theorem workerIteration_nonpos (cfg : Config) (job : Job) (h : job.url ≠ "")
    (hrl : cfg.rateLimit ≤ 0) :
    workerIteration cfg job = ⟨[], .panic "invalid argument to Intn"⟩ := by
  unfold workerIteration
  rw [if_neg h, randomDelay_of_nonpos hrl, andThen_panic]

theorem workerIteration_pos (cfg : Config) (job : Job) (h : job.url ≠ "")
    (hrl : 1 ≤ cfg.rateLimit) :
    ∃ fetched,
      (FetchURL cfg.NewRequest job.world job.url cfg.rateLimit cfg.retryAfter).result =
        .done fetched ∧
      workerIteration cfg job =
        ⟨(randomDelay cfg.rateLimit job.pacingDraw).events ++
          ((FetchURL cfg.NewRequest job.world job.url cfg.rateLimit cfg.retryAfter).events ++
            (report cfg job.url fetched).events), .done ()⟩ := by
  obtain ⟨fetched, hf⟩ := fetchLoop_returns
    (cfg.NewRequest ("https://api.allorigins.win/raw?url=" ++ job.url))
    ("https://api.allorigins.win/raw?url=" ++ job.url) cfg.rateLimit cfg.retryAfter job.world
    hrl 5 0 none
  refine ⟨fetched, hf, ?_⟩
  have hF : FetchURL cfg.NewRequest job.world job.url cfg.rateLimit cfg.retryAfter =
      ⟨(FetchURL cfg.NewRequest job.world job.url cfg.rateLimit cfg.retryAfter).events,
        .done fetched⟩ := by
    change (_ : Prog _) = ⟨_, _⟩
    rw [← show (FetchURL cfg.NewRequest job.world job.url cfg.rateLimit cfg.retryAfter).result
      = .done fetched from hf]
  unfold workerIteration
  rw [if_neg h, randomDelay_of_pos hrl, andThen_done, hF, andThen_done, report_result]

theorem workerIteration_lines_le (cfg : Config) (job : Job) :
    (sentLines (workerIteration cfg job).events).length ≤ 1 := by
  by_cases h : job.url = ""
  · rw [workerIteration_blank cfg job h]; simp [sentLines]
  · rcases le_or_lt cfg.rateLimit 0 with hrl | hrl
    · rw [workerIteration_nonpos cfg job h hrl]; simp [sentLines]
    · obtain ⟨fetched, _, hw⟩ := workerIteration_pos cfg job h (by omega)
      rw [hw]
      simp only [sentLines_append, sentLines_randomDelay, List.nil_append]
      rw [show sentLines (FetchURL cfg.NewRequest job.world job.url cfg.rateLimit
        cfg.retryAfter).events = [] from sentLines_fetchLoop _ _ _ _ _ 5 0 none,
        List.nil_append]
      exact report_lines_le cfg job.url fetched

theorem report_lines (cfg : Config) (url : String) (fetched : Except String String) :
    (∀ err, fetched = .error err →
      sentLines (report cfg url fetched).events =
        if cfg.showErrors = true then ["Error fetching URL " ++ url ++ ": " ++ err] else []) ∧
    (∀ html err, fetched = .ok html → ExtractScripts cfg.Parse html = .error err →
      sentLines (report cfg url fetched).events =
        if cfg.showErrors = true then
          ["Error extracting scripts from URL " ++ url ++ ": " ++ err]
        else []) ∧
    (∀ html scripts, fetched = .ok html → ExtractScripts cfg.Parse html = .ok scripts →
      ScanForUnsafePatterns scripts = [] →
      sentLines (report cfg url fetched).events =
        if cfg.showErrors = true then
          ["No potential DOM XSS vulnerabilities detected in " ++ url ++ "."]
        else []) ∧
    (∀ html scripts, fetched = .ok html → ExtractScripts cfg.Parse html = .ok scripts →
      ScanForUnsafePatterns scripts ≠ [] →
      sentLines (report cfg url fetched).events =
        ["Possible DOM XSS vulnerabilities detected in " ++ url ++ ":\n" ++
          String.intercalate "\n" (ScanForUnsafePatterns scripts)]) := by
  refine ⟨?_, ?_, ?_, ?_⟩
  · rintro err rfl
    unfold report
    simp only
    split_ifs <;> rfl
  · rintro html err rfl hex
    unfold report
    simp only [hex]
    split_ifs <;> rfl
  · rintro html scripts rfl hex hnone
    unfold report
    simp only [hex, hnone, List.length_nil, gt_iff_lt, lt_self_iff_false, if_false]
    split_ifs <;> rfl
  · rintro html scripts rfl hex hsome
    have hlen : (ScanForUnsafePatterns scripts).length > 0 :=
      List.length_pos.mpr hsome
    unfold report
    simp only [hex, hlen, if_true]
    rfl

/-! ## Theorems: worker -/

/-- C6, as stated, fails: with the rate limit 0 (`-rl 0`), verbose on and a non-blank URL,
the iteration sends no line; it ends in the panic of `rand.Intn(0)` in the pacing delay,
before the fetch. -/
theorem workerIteration_zero_rate_no_line :
    (okJob "http://a").url ≠ "" ∧
    (workerConfig ⟨5, 0, true, false⟩ (fun _ => none) (fun _ => .ok evalDoc)).showErrors =
      true ∧
    workerIteration (workerConfig ⟨5, 0, true, false⟩ (fun _ => none) (fun _ => .ok evalDoc))
      (okJob "http://a") = ⟨[], .panic "invalid argument to Intn"⟩ ∧
    (sentLines (workerIteration
      (workerConfig ⟨5, 0, true, false⟩ (fun _ => none) (fun _ => .ok evalDoc))
      (okJob "http://a")).events).length ≠ 1 := by
  decide

/-- C6, amended. One iteration of `worker` sends at most one line, and none for a blank URL,
whatever the rate limit.  With `rateLimit >= 1` and a non-blank URL the iteration reaches the
fetch, the fetch returns an outcome and the iteration returns; for every outcome of the fetch
and of the extraction the lines it sends are: with findings, exactly the one line that lists
them, whatever the verbose flag; without findings, exactly one line when verbose is on (the
fetch error, the extraction error, or the "no findings" line) and none when verbose is
off. -/
theorem workerIteration_report_lines (cfg : Config) (job : Job) :
    (sentLines (workerIteration cfg job).events).length ≤ 1 ∧
    (job.url = "" → workerIteration cfg job = ⟨[], .done ()⟩) ∧
    (job.url ≠ "" → 1 ≤ cfg.rateLimit →
      ∃ fetched,
        (FetchURL cfg.NewRequest job.world job.url cfg.rateLimit cfg.retryAfter).result =
          .done fetched ∧
        (workerIteration cfg job).result = .done () ∧
        (∀ err, fetched = .error err →
          sentLines (workerIteration cfg job).events =
            if cfg.showErrors = true then ["Error fetching URL " ++ job.url ++ ": " ++ err]
            else []) ∧
        (∀ html err, fetched = .ok html → ExtractScripts cfg.Parse html = .error err →
          sentLines (workerIteration cfg job).events =
            if cfg.showErrors = true then
              ["Error extracting scripts from URL " ++ job.url ++ ": " ++ err]
            else []) ∧
        (∀ html scripts, fetched = .ok html → ExtractScripts cfg.Parse html = .ok scripts →
          ScanForUnsafePatterns scripts = [] →
          sentLines (workerIteration cfg job).events =
            if cfg.showErrors = true then
              ["No potential DOM XSS vulnerabilities detected in " ++ job.url ++ "."]
            else []) ∧
        (∀ html scripts, fetched = .ok html → ExtractScripts cfg.Parse html = .ok scripts →
          ScanForUnsafePatterns scripts ≠ [] →
          sentLines (workerIteration cfg job).events =
            ["Possible DOM XSS vulnerabilities detected in " ++ job.url ++ ":\n" ++
              String.intercalate "\n" (ScanForUnsafePatterns scripts)]) ∧
        ((∃ html scripts, fetched = .ok html ∧ ExtractScripts cfg.Parse html = .ok scripts ∧
            ScanForUnsafePatterns scripts ≠ []) →
          (sentLines (workerIteration cfg job).events).length = 1) ∧
        (cfg.showErrors = true →
          (sentLines (workerIteration cfg job).events).length = 1) ∧
        (cfg.showErrors = false →
          (¬ ∃ html scripts, fetched = .ok html ∧ ExtractScripts cfg.Parse html = .ok scripts ∧
            ScanForUnsafePatterns scripts ≠ []) →
          sentLines (workerIteration cfg job).events = [])) := by
  refine ⟨workerIteration_lines_le cfg job, workerIteration_blank cfg job, ?_⟩
  intro hurl hrl
  obtain ⟨fetched, hf, hw⟩ := workerIteration_pos cfg job hurl hrl
  have hlines : sentLines (workerIteration cfg job).events =
      sentLines (report cfg job.url fetched).events := by
    rw [hw]
    simp only [sentLines_append, sentLines_randomDelay, List.nil_append]
    rw [show sentLines (FetchURL cfg.NewRequest job.world job.url cfg.rateLimit
      cfg.retryAfter).events = [] from sentLines_fetchLoop _ _ _ _ _ 5 0 none, List.nil_append]
  obtain ⟨h1, h2, h3, h4⟩ := report_lines cfg job.url fetched
  rw [hlines]
  refine ⟨fetched, hf, by rw [hw], h1, h2, h3, h4, ?_, ?_, ?_⟩
  · rintro ⟨html, scripts, hfe, hex, hsome⟩
    rw [h4 html scripts hfe hex hsome]
    rfl
  · intro hv
    cases fetched with
    | error err => rw [h1 err rfl, if_pos hv]; rfl
    | ok html =>
        cases hex : ExtractScripts cfg.Parse html with
        | error err => rw [h2 html err rfl hex, if_pos hv]; rfl
        | ok scripts =>
            by_cases hs : ScanForUnsafePatterns scripts = []
            · rw [h3 html scripts rfl hex hs, if_pos hv]; rfl
            · rw [h4 html scripts rfl hex hs]; rfl
  · intro hv hnot
    have hv2 : ¬ cfg.showErrors = true := by simp [hv]
    cases fetched with
    | error err => rw [h1 err rfl, if_neg hv2]
    | ok html =>
        cases hex : ExtractScripts cfg.Parse html with
        | error err => rw [h2 html err rfl hex, if_neg hv2]
        | ok scripts =>
            by_cases hs : ScanForUnsafePatterns scripts = []
            · rw [h3 html scripts rfl hex hs, if_neg hv2]
            · exact absurd ⟨html, scripts, rfl, hex, hs⟩ hnot

/-- Witness of C6 (amended): with verbose off and the default rate limit, a URL whose page
has the script `eval(x)` gives exactly one line, the one that lists the finding. -/
theorem workerIteration_report_lines_witness :
    (workerIteration quietConfig (okJob "http://a")).result = .done () ∧
    (sentLines (workerIteration quietConfig (okJob "http://a")).events).length = 1 ∧
    sentLines (workerIteration quietConfig (okJob "http://a")).events =
      ["Possible DOM XSS vulnerabilities detected in http://a:\nPattern \x27(?i)eval\\(\x27 found in script:\neval(x)"] := by
  obtain ⟨fetched, hf, hres, _, _, _, h4, hone, _, _⟩ :=
    (workerIteration_report_lines quietConfig (okJob "http://a")).2.2 (by decide) (by decide)
  have hfetched : fetched = .ok "<script>eval(x)</script>" := by
    have h : (FetchURL quietConfig.NewRequest (okJob "http://a").world (okJob "http://a").url
        quietConfig.rateLimit quietConfig.retryAfter).result =
        .done (.ok "<script>eval(x)</script>") := by decide
    rw [h] at hf
    injection hf with hf
    exact hf.symm
  have hex : ExtractScripts quietConfig.Parse "<script>eval(x)</script>" = .ok ["eval(x)"] :=
    congrArg Except.ok (by decide)
  have hsome : ScanForUnsafePatterns ["eval(x)"] ≠ [] := by decide
  refine ⟨hres, hone ⟨_, _, hfetched, hex, hsome⟩, ?_⟩
  rw [h4 _ _ hfetched hex hsome]
  decide

/-- C10. `randomDelay` returns (after one sleep) exactly when `rateLimit >= 1`; for every
`rateLimit <= 0` the call `rand.Intn(rateLimit)` panics.  `worker` passes the rate limit it
is given to `randomDelay` unchecked, so with `rateLimit <= 0` the first non-blank URL it
receives ends the run in that panic: no request is made, no line is sent, and the URLs after
it are not processed. -/
theorem randomDelay_returns_iff (rateLimit : Int) (draw : Nat) :
    ((∃ d, randomDelay rateLimit draw = ⟨[.sleep d], .done ()⟩) ↔ 1 ≤ rateLimit) ∧
    (randomDelay rateLimit draw = ⟨[], .panic "invalid argument to Intn"⟩ ↔ rateLimit ≤ 0) ∧
    (Intn rateLimit draw = .panic "invalid argument to Intn" ↔ rateLimit ≤ 0) ∧
    (∀ (flags : Flags) (NewRequest : String → Option String)
        (Parse : String → Except String Node) (blanks : List Job) (job : Job) (rest : List Job),
      flags.rateLimit = rateLimit → rateLimit ≤ 0 → (∀ b, b ∈ blanks → b.url = "") →
      job.url ≠ "" →
      worker (workerConfig flags NewRequest Parse) (blanks ++ job :: rest) =
        ⟨[], .panic "invalid argument to Intn"⟩) := by
  refine ⟨?_, ?_, ?_, ?_⟩
  · constructor
    · rintro ⟨d, hd⟩
      by_contra hneg
      rw [randomDelay_of_nonpos (by omega)] at hd
      injection hd with hev _
      cases hev
    · intro h
      exact ⟨_, randomDelay_of_pos h draw⟩
  · constructor
    · intro hp
      by_contra hneg
      rw [randomDelay_of_pos (by omega)] at hp
      injection hp with hev _
      cases hev
    · intro h
      exact randomDelay_of_nonpos h draw
  · constructor
    · intro hp
      by_contra hneg
      rw [Intn_of_pos (by omega)] at hp
      cases hp
    · intro h
      exact Intn_of_nonpos h draw
  · intro flags NewRequest Parse blanks job rest hcfg hrl hblank hurl
    have hcfg2 : (workerConfig flags NewRequest Parse).rateLimit ≤ 0 := by
      show flags.rateLimit ≤ 0
      omega
    induction blanks with
    | nil =>
        show worker _ (job :: rest) = _
        rw [worker, workerIteration_nonpos _ job hurl hcfg2, andThen_panic]
    | cons b blanks ih =>
        show worker _ (b :: (blanks ++ job :: rest)) = _
        rw [worker, workerIteration_blank _ b (hblank b (List.mem_cons_self _ _)),
          andThen_done, ih (fun b2 hb2 => hblank b2 (List.mem_cons_of_mem _ hb2))]
        rfl

/-- Witness of C10: with `-rl 0 -v`, a blank line and then two URLs: the run ends in the
panic at the first URL, with no event at all. -/
theorem randomDelay_returns_iff_witness :
    worker (workerConfig ⟨5, 0, true, false⟩ (fun _ => none) (fun _ => .ok evalDoc))
        ([⟨"", 0, alwaysFailed⟩] ++ okJob "http://a" :: [okJob "http://b"]) =
      ⟨[], .panic "invalid argument to Intn"⟩ :=
  (randomDelay_returns_iff 0 0).2.2.2 ⟨5, 0, true, false⟩ (fun _ => none)
    (fun _ => .ok evalDoc) [⟨"", 0, alwaysFailed⟩] (okJob "http://a") [okJob "http://b"] rfl
    (by decide) (by decide) (by decide)

end DOMinator
